import Mathlib

/-!
Verification development for the dissertation data-collection pipeline
(`collect_data.py`, `collect_ml_features.py`, `extract_termination_stats.py`).

The Python scripts are shallowly embedded: strings are `List Char`
manipulated by executable functions that mirror the Python string,
regex and `json` operations the scripts use; Python dictionaries are
association lists with Python's insertion-order update semantics;
subprocess interaction is abstracted as a function from attempt index
to the attempt's outcome.  Machine-level concerns (actual process
spawning, the file system) are modelled by explicit parameters, as
noted on each definition.
-/

/-! ## Character and string primitives (Python `str` operations) -/

/-- Whitespace characters removed by Python `str.strip()` (default set). -/
def isPyWs (c : Char) : Bool :=
  c = ' ' || c = '\t' || c = '\n' || c = '\r' || c = '\x0b' || c = '\x0c'

/-- Whitespace accepted by Python's `json` module and by the `\s` class of
the `re` module (ASCII fragment). -/
def isJsonWs (c : Char) : Bool :=
  c = ' ' || c = '\t' || c = '\n' || c = '\r' || c = '\x0b' || c = '\x0c'

/-- ASCII digit test, the `\d` class of the `re` module (ASCII fragment). -/
def isDigitC (c : Char) : Bool :=
  '0' ≤ c && c ≤ '9'

/-- Python `str.strip()`: drop leading and trailing whitespace. -/
def pyStrip (s : List Char) : List Char :=
  ((s.dropWhile isPyWs).reverse.dropWhile isPyWs).reverse

/-- Python `str.split(',')`: split on every comma, keeping empty pieces;
the empty string yields `[""]`. -/
def splitComma : List Char → List (List Char)
  | [] => [[]]
  | c :: rest =>
    match splitComma rest with
    | [] => [[]]
    | g :: gs => if c = ',' then [] :: g :: gs else (c :: g) :: gs

/-- Digit run to a natural number (most significant first). -/
def digitsToNat (ds : List Char) : Nat :=
  ds.foldl (fun acc c => 10 * acc + (c.toNat - '0'.toNat)) 0

/-- Python `int(s)` on the sign-and-digits fragment: surrounding whitespace
is stripped, an optional `+`/`-` sign is allowed, then at least one ASCII
digit; anything else (in particular the empty string) raises, modelled as
`none`.  (Digit-group underscores, an obscure Python extension, are not
modelled.) -/
def pyInt (s : List Char) : Option Int :=
  let t := pyStrip s
  match t with
  | '-' :: ds => if ds ≠ [] && ds.all isDigitC then some (-(digitsToNat ds : Int)) else none
  | '+' :: ds => if ds ≠ [] && ds.all isDigitC then some ((digitsToNat ds : Int)) else none
  | ds => if ds ≠ [] && ds.all isDigitC then some ((digitsToNat ds : Int)) else none

/-- `[int(val.strip()) for val in x.split(',')]`: every comma-separated
piece must convert, otherwise the comprehension raises (`none`). -/
def parseCsvInts (s : List Char) : Option (List Int) :=
  (splitComma s).mapM (fun piece => pyInt (pyStrip piece))

/-- Does `needle` occur as a contiguous sublist of `hay`?  Models Python's
`in` test on strings. -/
def containsSub (needle : List Char) : List Char → Bool
  | [] => decide (needle = [])
  | c :: rest => decide (needle <+: (c :: rest)) || containsSub needle (c :: rest).tail

/-! ## The regex fragment used by the scripts

The scripts use `re.search` with three pattern shapes:
a literal prefix, a lazy dot-capture and a literal closing character
(`Sums: \[(.*?)\]`, `Pi: \[(.*?)\]`, `(\{.*?\})`); a literal prefix and a
greedy digit capture (`MaxSum: (\d+)`); and the same followed by a literal
suffix (`Time: (\d+)ms`).  `re.search` returns the leftmost position at
which the whole pattern matches; `.` does not match a newline. -/

/-- Lazy capture after the prefix: the shortest run of non-newline
characters up to the first occurrence of `post`; fails if a newline or the
end of input comes first. -/
def lazyCapture (post : Char) : List Char → Option (List Char)
  | [] => none
  | c :: rest =>
    if c = post then some []
    else if c = '\n' then none
    else (lazyCapture post rest).map (c :: ·)

/-- Try the pattern `pre(.*?)post` anchored at the start of `s`. -/
def tryLazyAt (pre : List Char) (post : Char) (s : List Char) : Option (List Char) :=
  if pre <+: s then lazyCapture post (s.drop pre.length) else none

/-- `re.search(pre + '(.*?)' + post, s)`: leftmost anchoring position that
matches, returning the captured group. -/
def searchLazy (pre : List Char) (post : Char) : List Char → Option (List Char)
  | [] => tryLazyAt pre post []
  | c :: rest =>
    match tryLazyAt pre post (c :: rest) with
    | some cap => some cap
    | none => searchLazy pre post rest

/-- Try the pattern `pre(\d+)postLit` anchored at the start of `s`: a
maximal non-empty digit run followed by the literal suffix (backtracking a
greedy `\d+` into the suffix is impossible because a digit can never match
the suffix's first character). -/
def tryDigitsAt (pre postLit : List Char) (s : List Char) : Option (List Char) :=
  if pre <+: s then
    let rest := s.drop pre.length
    let ds := rest.takeWhile isDigitC
    if ds ≠ [] && (postLit <+: rest.drop ds.length) then some ds else none
  else none

/-- `re.search(pre + '(\d+)' + postLit, s)`: leftmost match, returning the
captured digit run. -/
def searchDigits (pre postLit : List Char) : List Char → Option (List Char)
  | [] => tryDigitsAt pre postLit []
  | c :: rest =>
    match tryDigitsAt pre postLit (c :: rest) with
    | some cap => some cap
    | none => searchDigits pre postLit rest

/-! ## JSON values (`json.loads` / `json.dumps`)

`JValue` models the Python values produced by `json.loads` on the
integer-numeric fragment the solver emits (floats are outside the model).
Equality is structural; Python dictionaries coming from `json.loads` keep
one entry per key (duplicate keys in the text keep the last value at the
first position), which the parser below reproduces, so structural equality
of parsed objects agrees with Python `dict` equality up to key order. -/

inductive JValue where
  | null : JValue
  | bool (b : Bool) : JValue
  | num (n : Int) : JValue
  | str (s : String) : JValue
  | arr (items : List JValue) : JValue
  | obj (members : List (String × JValue)) : JValue

mutual

def JValue.decEq : (a b : JValue) → Decidable (a = b)
  | .null, .null => isTrue rfl
  | .bool x, .bool y =>
      if h : x = y then isTrue (by rw [h]) else isFalse (fun hc => by cases hc; exact h rfl)
  | .num x, .num y =>
      if h : x = y then isTrue (by rw [h]) else isFalse (fun hc => by cases hc; exact h rfl)
  | .str x, .str y =>
      if h : x = y then isTrue (by rw [h]) else isFalse (fun hc => by cases hc; exact h rfl)
  | .arr xs, .arr ys =>
      match JValue.decEqArr xs ys with
      | isTrue h => isTrue (by rw [h])
      | isFalse h => isFalse (fun hc => by cases hc; exact h rfl)
  | .obj xs, .obj ys =>
      match JValue.decEqObj xs ys with
      | isTrue h => isTrue (by rw [h])
      | isFalse h => isFalse (fun hc => by cases hc; exact h rfl)
  | .null, .bool _ => isFalse (by intro h; cases h)
  | .null, .num _ => isFalse (by intro h; cases h)
  | .null, .str _ => isFalse (by intro h; cases h)
  | .null, .arr _ => isFalse (by intro h; cases h)
  | .null, .obj _ => isFalse (by intro h; cases h)
  | .bool _, .null => isFalse (by intro h; cases h)
  | .bool _, .num _ => isFalse (by intro h; cases h)
  | .bool _, .str _ => isFalse (by intro h; cases h)
  | .bool _, .arr _ => isFalse (by intro h; cases h)
  | .bool _, .obj _ => isFalse (by intro h; cases h)
  | .num _, .null => isFalse (by intro h; cases h)
  | .num _, .bool _ => isFalse (by intro h; cases h)
  | .num _, .str _ => isFalse (by intro h; cases h)
  | .num _, .arr _ => isFalse (by intro h; cases h)
  | .num _, .obj _ => isFalse (by intro h; cases h)
  | .str _, .null => isFalse (by intro h; cases h)
  | .str _, .bool _ => isFalse (by intro h; cases h)
  | .str _, .num _ => isFalse (by intro h; cases h)
  | .str _, .arr _ => isFalse (by intro h; cases h)
  | .str _, .obj _ => isFalse (by intro h; cases h)
  | .arr _, .null => isFalse (by intro h; cases h)
  | .arr _, .bool _ => isFalse (by intro h; cases h)
  | .arr _, .num _ => isFalse (by intro h; cases h)
  | .arr _, .str _ => isFalse (by intro h; cases h)
  | .arr _, .obj _ => isFalse (by intro h; cases h)
  | .obj _, .null => isFalse (by intro h; cases h)
  | .obj _, .bool _ => isFalse (by intro h; cases h)
  | .obj _, .num _ => isFalse (by intro h; cases h)
  | .obj _, .str _ => isFalse (by intro h; cases h)
  | .obj _, .arr _ => isFalse (by intro h; cases h)

def JValue.decEqArr : (a b : List JValue) → Decidable (a = b)
  | [], [] => isTrue rfl
  | [], _ :: _ => isFalse (by intro h; cases h)
  | _ :: _, [] => isFalse (by intro h; cases h)
  | x :: xs, y :: ys =>
      match JValue.decEq x y with
      | isFalse h => isFalse (fun hc => by cases hc; exact h rfl)
      | isTrue h1 =>
        match JValue.decEqArr xs ys with
        | isTrue h2 => isTrue (by rw [h1, h2])
        | isFalse h2 => isFalse (fun hc => by cases hc; exact h2 rfl)

def JValue.decEqObj : (a b : List (String × JValue)) → Decidable (a = b)
  | [], [] => isTrue rfl
  | [], _ :: _ => isFalse (by intro h; cases h)
  | _ :: _, [] => isFalse (by intro h; cases h)
  | (k1, v1) :: xs, (k2, v2) :: ys =>
      match String.decEq k1 k2 with
      | isFalse h => isFalse (fun hc => by cases hc; exact h rfl)
      | isTrue hk =>
        match JValue.decEq v1 v2 with
        | isFalse h => isFalse (fun hc => by cases hc; exact h rfl)
        | isTrue hv =>
          match JValue.decEqObj xs ys with
          | isTrue h2 => isTrue (by rw [hk, hv, h2])
          | isFalse h2 => isFalse (fun hc => by cases hc; exact h2 rfl)

end

instance : DecidableEq JValue := JValue.decEq

/-! ## Python dictionaries as association lists -/

/-- `d[k] = v` on a Python `dict`: replace in place if the key is present
(keeping its insertion position), otherwise append. -/
def dictSet (k : String) (v : JValue) : List (String × JValue) → List (String × JValue)
  | [] => [(k, v)]
  | (k', v') :: rest => if k' = k then (k, v) :: rest else (k', v') :: dictSet k v rest

/-- `d.get(k)` / `d[k]` lookup on a Python `dict`. -/
def dictGet (k : String) : List (String × JValue) → Option JValue
  | [] => none
  | (k', v') :: rest => if k' = k then some v' else dictGet k rest

/-- `d.keys()` of a Python `dict` (in insertion order). -/
def dictKeys (d : List (String × JValue)) : List String :=
  d.map (·.1)

/-- `result.update(stats)`: apply `d[k] = v` for the entries of `stats` in
order. -/
def dictUpdate (d stats : List (String × JValue)) : List (String × JValue) :=
  stats.foldl (fun acc kv => dictSet kv.1 kv.2 acc) d

/-! ## `json.loads` on the integer fragment

A fueled recursive-descent reader for JSON objects, arrays, strings
(plain characters and the single-character escapes), integers, `true`,
`false` and `null`.  Floats and `\u` escapes are outside the model; every
string the scripts at hand read or write stays inside the fragment.
`none` models `json.JSONDecodeError`. -/

/-- Decode one string escape character (after the backslash). -/
def jsonEscape (c : Char) : Option Char :=
  if c = '"' then some '"'
  else if c = '\\' then some '\\'
  else if c = '/' then some '/'
  else if c = 'n' then some '\n'
  else if c = 't' then some '\t'
  else if c = 'r' then some '\r'
  else if c = 'b' then some '\x08'
  else if c = 'f' then some '\x0c'
  else none

/-- Read the body of a JSON string after the opening quote, up to the
closing quote.  Raw control characters are rejected, as in strict
`json.loads`. -/
def jsonString : Nat → List Char → Option (List Char × List Char)
  | 0, _ => none
  | _ + 1, [] => none
  | fuel + 1, c :: rest =>
    if c = '"' then some ([], rest)
    else if c = '\\' then
      match rest with
      | [] => none
      | e :: rest2 =>
        match jsonEscape e with
        | none => none
        | some d =>
          match jsonString fuel rest2 with
          | some (body, rem) => some (d :: body, rem)
          | none => none
    else if c.toNat < 32 then none
    else
      match jsonString fuel rest with
      | some (body, rem) => some (c :: body, rem)
      | none => none

/-- Insert a parsed object member with Python's duplicate-key rule: the
first occurrence keeps its position, the last value wins. -/
def objInsert (k : String) (v : JValue) : List (String × JValue) → List (String × JValue)
  | [] => [(k, v)]
  | (k', v') :: rest => if k' = k then (k, v) :: rest else (k', v') :: objInsert k v rest

mutual

/-- Read one JSON value from the input (leading whitespace allowed),
returning it with the unconsumed remainder. -/
def jsonValue : Nat → List Char → Option (JValue × List Char)
  | 0, _ => none
  | fuel + 1, s =>
    match s.dropWhile isJsonWs with
    | [] => none
    | c :: rest =>
      if c = 'n' then
        if ['u', 'l', 'l'] <+: rest then some (.null, rest.drop 3) else none
      else if c = 't' then
        if ['r', 'u', 'e'] <+: rest then some (.bool true, rest.drop 3) else none
      else if c = 'f' then
        if ['a', 'l', 's', 'e'] <+: rest then some (.bool false, rest.drop 4) else none
      else if c = '"' then
        match jsonString (rest.length + 1) rest with
        | some (body, rem) => some (.str (String.mk body), rem)
        | none => none
      else if c = '-' then
        let ds := rest.takeWhile isDigitC
        if ds = [] then none
        else if ds.head? = some '0' && ds.length > 1 then none
        else some (.num (-(digitsToNat ds : Int)), rest.drop ds.length)
      else if isDigitC c then
        let ds := (c :: rest).takeWhile isDigitC
        if ds.head? = some '0' && ds.length > 1 then none
        else some (.num ((digitsToNat ds : Int)), (c :: rest).drop ds.length)
      else if c = '\x7b' then
        match rest.dropWhile isJsonWs with
        | '\x7d' :: rem => some (.obj [], rem)
        | other => jsonMembers fuel other []
      else if c = '[' then
        match rest.dropWhile isJsonWs with
        | ']' :: rem => some (.arr [], rem)
        | other =>
          match jsonItems fuel other with
          | some (items, rem) => some (.arr items, rem)
          | none => none
      else none

/-- Read the members of an object, positioned at a key. -/
def jsonMembers : Nat → List Char → List (String × JValue) →
    Option (JValue × List Char)
  | 0, _, _ => none
  | fuel + 1, s, acc =>
    match s.dropWhile isJsonWs with
    | '"' :: rest =>
      match jsonString (rest.length + 1) rest with
      | none => none
      | some (key, rem1) =>
        match rem1.dropWhile isJsonWs with
        | ':' :: rem2 =>
          match jsonValue fuel rem2 with
          | none => none
          | some (v, rem3) =>
            let acc2 := objInsert (String.mk key) v acc
            match rem3.dropWhile isJsonWs with
            | ',' :: rem4 => jsonMembers fuel rem4 acc2
            | '\x7d' :: rem4 => some (.obj acc2, rem4)
            | _ => none
        | _ => none
    | _ => none

/-- Read the items of an array, positioned at a value. -/
def jsonItems : Nat → List Char → Option (List JValue × List Char)
  | 0, _ => none
  | fuel + 1, s =>
    match jsonValue fuel s with
    | none => none
    | some (v, rem) =>
      match rem.dropWhile isJsonWs with
      | ',' :: rem2 =>
        match jsonItems fuel rem2 with
        | some (items, rem3) => some (v :: items, rem3)
        | none => none
      | ']' :: rem2 => some ([v], rem2)
      | _ => none

end

/-- `json.loads(s)`: one complete JSON value with only whitespace around
it. -/
def jsonLoads (s : List Char) : Option JValue :=
  match jsonValue (s.length + 1) s with
  | none => none
  | some (v, rem) => if rem.dropWhile isJsonWs = [] then some v else none

/-! ## `json.dumps` (default separators) -/

/-- Escape a string body for `json.dumps`. -/
def jsonEscapeOut (s : List Char) : List Char :=
  s.flatMap (fun c =>
    if c = '"' then ['\\', '"']
    else if c = '\\' then ['\\', '\\']
    else if c = '\n' then ['\\', 'n']
    else if c = '\t' then ['\\', 't']
    else if c = '\r' then ['\\', 'r']
    else [c])

mutual

/-- `json.dumps` with the default separators `', '` and `': '`. -/
def jsonDumps : JValue → List Char
  | .null => "null".data
  | .bool true => "true".data
  | .bool false => "false".data
  | .num n => (toString n).data
  | .str s => '"' :: jsonEscapeOut s.data ++ ['"']
  | .arr items => '[' :: jsonDumpsItems items ++ [']']
  | .obj members => '\x7b' :: jsonDumpsMembers members ++ ['\x7d']

def jsonDumpsItems : List JValue → List Char
  | [] => []
  | [v] => jsonDumps v
  | v :: rest => jsonDumps v ++ [',', ' '] ++ jsonDumpsItems rest

def jsonDumpsMembers : List (String × JValue) → List Char
  | [] => []
  | [(k, v)] => '"' :: jsonEscapeOut k.data ++ ['"', ':', ' '] ++ jsonDumps v
  | (k, v) :: rest =>
      '"' :: jsonEscapeOut k.data ++ ['"', ':', ' '] ++ jsonDumps v ++ [',', ' '] ++
        jsonDumpsMembers rest

end

/-! ## `collect_data.py` -/

namespace CollectData

/-- `re.search(r'(\{.*?\})', output)` followed by `json.loads` on the
match: the decoded stats object, or `none` when no match is found or the
candidate fails to decode (`json.JSONDecodeError`, which `parse_output`
logs and ignores).  A successful decode of a `{...}` candidate is always
an object. -/
def embeddedJsonStats (output : List Char) : Option (List (String × JValue)) :=
  (searchLazy ['\x7b'] '\x7d' output).bind (fun cap =>
    match jsonLoads ('\x7b' :: (cap ++ ['\x7d'])) with
    | some (.obj kvs) => some kvs
    | _ => none)

/-- The `parse_pattern(r'Sums: \[(.*?)\]', "sums", ...)` extraction:
regex capture, then the int-list comprehension; `none` when the pattern
does not match or a piece fails to convert (exception logged, field
omitted). -/
def extractSums (output : List Char) : Option (List Int) :=
  (searchLazy "Sums: [".data ']' output).bind parseCsvInts

/-- The `Pi: \[(.*?)\]` extraction, same shape as `extractSums`. -/
def extractPi (output : List Char) : Option (List Int) :=
  (searchLazy "Pi: [".data ']' output).bind parseCsvInts

/-- The `MaxSum: (\d+)` extraction; `int` on a digit run never fails. -/
def extractMaxsum (output : List Char) : Option Int :=
  (searchDigits "MaxSum: ".data [] output).map (fun ds => (digitsToNat ds : Int))

/-- The `Time: (\d+)ms` extraction. -/
def extractTime (output : List Char) : Option Int :=
  (searchDigits "Time: ".data "ms".data output).map (fun ds => (digitsToNat ds : Int))

/-- `collect_data.parse_output`: start from `{"file": instance_path}`,
merge the embedded JSON stats if they decode, then extract `sums`, `pi`,
`maxsum` and `time`, each in its own `try` so a failure only omits that
field. -/
def parse_output (output instance_path : String) : List (String × JValue) :=
  let o := output.data
  let result := [("file", JValue.str instance_path)]
  let result := match embeddedJsonStats o with
    | some stats => dictUpdate result stats
    | none => result
  let result := match extractSums o with
    | some xs => dictSet "sums" (.arr (xs.map .num)) result
    | none => result
  let result := match extractPi o with
    | some xs => dictSet "pi" (.arr (xs.map .num)) result
    | none => result
  let result := match extractMaxsum o with
    | some n => dictSet "maxsum" (.num n) result
    | none => result
  let result := match extractTime o with
    | some n => dictSet "time" (.num n) result
    | none => result
  result

/-- `collect_data.main`'s persistence loop: for each instance, run the
solver (abstracted as `runF`, the composition of `run_command` with the
external solver), reload the result array, append the new record and
rewrite it.  In one sequential process the reload-append-rewrite cycle is
the fold below.  No processed-set is consulted and no instance file is
relocated, so every instance found in the corpus directory is run and
appended. -/
def main (runF : String → List (String × JValue))
    (store : List (List (String × JValue))) (instances : List String) :
    List (List (String × JValue)) :=
  instances.foldl (fun results inst => results ++ [runF inst]) store

end CollectData

/-! ## `extract_termination_stats.py` -/

namespace ExtractTerminationStats

/-- The record built by `parse_solver_output` for one instance. -/
structure TermStats where
  subset_sum_max : Int
  subset_sum_min : Int
  subset_sum_variance : Rat
  sums : List Int
deriving DecidableEq

/-- Python `max` on a non-empty list (the `[]` case never arises in
`parse_solver_output`, which returns `None` first). -/
def listMax : List Int → Int
  | [] => 0
  | x :: rest => rest.foldl max x

/-- Python `min` on a non-empty list. -/
def listMin : List Int → Int
  | [] => 0
  | x :: rest => rest.foldl min x

/-- `statistics.variance`: the sample variance
`Σ (x - mean)² / (n - 1)`, computed exactly over `ℚ` as the `statistics`
module does over `Fraction` for integer data. -/
def sampleVariance (xs : List Int) : Rat :=
  let n : Rat := xs.length
  let mean : Rat := (xs.map (fun x => (x : Rat))).sum / n
  ((xs.map (fun x => ((x : Rat) - mean) ^ 2)).sum) / (n - 1)

/-- `extract_termination_stats.parse_solver_output`: extract the
`Sums: [...]` capture, convert the comma-separated integers (any
conversion error is caught by the surrounding `try`, yielding `None`),
reject an empty list, then report max, min and sample variance (0 for
fewer than two sums). -/
def parse_solver_output (output : String) : Option TermStats :=
  match searchLazy "Sums: [".data ']' output.data with
  | none => none
  | some cap =>
    match parseCsvInts cap with
    | none => none
    | some sums =>
      if sums = [] then none
      else
        some { subset_sum_max := listMax sums
               subset_sum_min := listMin sums
               subset_sum_variance := if sums.length > 1 then sampleVariance sums else 0
               sums := sums }

end ExtractTerminationStats

/-! ## `collect_ml_features.py` -/

namespace CollectMLFeatures

/-- `MAX_RETRIES` from the configuration block. -/
def MAX_RETRIES : Nat := 3

/-- `entry.get("event")` for dictionary entries, as compared against the
sentinel names; a non-dictionary entry (skipped by the `isinstance`
check) and a non-string `event` value never equal a sentinel name. -/
def eventName (v : JValue) : Option String :=
  match v with
  | .obj kvs =>
    match dictGet "event" kvs with
    | some (.str s) => some s
    | _ => none
  | _ => none

/-- The `for entry in log_entries` scan that keeps the last entry whose
`event` equals `name`. -/
def lastEventEntry (name : String) (entries : List JValue) : Option JValue :=
  entries.foldl (fun acc e => if eventName e = some name then some e else acc) none

/-- The Event Feature Extractor on a decoded log: the first
`num_partitions` entries, then the detected `TIMEOUT` entry if it is not
already among them, then the detected `TERMINATE` entry likewise. -/
def log_items (log_entries : List JValue) (num_partitions : Nat) : List JValue :=
  let timeout_entry := lastEventEntry "TIMEOUT" log_entries
  let terminate_entry := lastEventEntry "TERMINATE" log_entries
  let items0 := log_entries.take num_partitions
  let items1 := match timeout_entry with
    | some t => if t ∈ items0 then items0 else items0 ++ [t]
    | none => items0
  let items2 := match terminate_entry with
    | some t => if t ∈ items1 then items1 else items1 ++ [t]
    | none => items1
  items2

/-- `re.sub(r',(\s*[\]}])', r'\1', json_str)`: delete every comma whose
next non-whitespace character is a closing bracket or brace (the
replacement keeps the whitespace and the bracket; the consumed region
never contains another comma, so the left-to-right non-overlapping scan
equals this character scan). -/
def stripTrailingCommas : List Char → List Char
  | [] => []
  | c :: rest =>
    if c = ',' &&
        (match rest.dropWhile isJsonWs with
         | ']' :: _ => true
         | '\x7d' :: _ => true
         | _ => false) then
      stripTrailingCommas rest
    else c :: stripTrailingCommas rest

/-- `.replace('\n', ' ').replace('\r', '')`. -/
def collapseNewlines (s : List Char) : List Char :=
  (s.map (fun c => if c = '\n' then ' ' else c)).filter (fun c => c ≠ '\r')

/-- `output.find(c)`: index of the first occurrence, `None` for Python's
`-1`. -/
def firstIdxOf (c : Char) (s : List Char) : Option Nat :=
  s.findIdx? (· = c)

/-- `output.rfind(c)`: index of the last occurrence. -/
def lastIdxOf (c : Char) (s : List Char) : Option Nat :=
  (s.reverse.findIdx? (· = c)).map (fun j => s.length - 1 - j)

/-- `collect_ml_features.parse_output`: slice from the first `{` to the
last `}` (requiring the latter strictly after the former), repair
trailing commas, collapse newlines, decode, require a top-level `log`
list, and extract the feature items; every failure yields the empty
record `{file_name: []}`.  (The verbatim debug copy of `output` is a
file-system side effect outside the returned value.) -/
def parse_output (output file_name : String) (num_partitions : Nat) :
    String × List JValue :=
  let cs := output.data
  match firstIdxOf '\x7b' cs, lastIdxOf '\x7d' cs with
  | some start_idx, some end_idx =>
    if end_idx > start_idx then
      let json_str := (cs.take (end_idx + 1)).drop start_idx
      let repaired := collapseNewlines (stripTrailingCommas json_str)
      match jsonLoads repaired with
      | some (.obj data) =>
        match dictGet "log" data with
        | some (.arr log_entries) => (file_name, log_items log_entries num_partitions)
        | _ => (file_name, [])
      | _ => (file_name, [])
    else (file_name, [])
  | _, _ => (file_name, [])

/-- One `subprocess.run` outcome: the Python-level timeout, any other
exception, or a completed process with its standard output and exit
code. -/
inductive AttemptOutcome where
  | timeoutExpired : AttemptOutcome
  | exception : AttemptOutcome
  | completed (stdout : String) (returncode : Int) : AttemptOutcome

/-- `'{' in stdout and '}' in stdout and '"log":' in stdout` — the
structural markers checked before parsing. -/
def hasLogMarkers (s : String) : Bool :=
  containsSub ['\x7b'] s.data && containsSub ['\x7d'] s.data &&
    containsSub "\"log\":".data s.data

/-- `collect_ml_features.run_command`.  The environment is abstracted as
`att`, mapping the attempt index to that invocation's outcome (the same
command line is issued every time); `file_name` is the instance's base
name and `num_partitions` the `k` read by `get_num_partitions`.  A
Python-level timeout returns the empty record at once; empty output,
missing markers, a non-zero exit code or an exception recurse with
`retry_count + 1` while `retry_count < MAX_RETRIES`, and return the empty
record once the ceiling is reached. -/
def run_command (att : Nat → AttemptOutcome) (file_name : String)
    (num_partitions : Nat) (retry_count idx : Nat) : String × List JValue :=
  match att idx with
  | .timeoutExpired => (file_name, [])
  | .exception =>
    if _h : retry_count < MAX_RETRIES then
      run_command att file_name num_partitions (retry_count + 1) (idx + 1)
    else (file_name, [])
  | .completed stdout returncode =>
    if pyStrip stdout.data = [] then
      if _h : retry_count < MAX_RETRIES then
        run_command att file_name num_partitions (retry_count + 1) (idx + 1)
      else (file_name, [])
    else if ¬ hasLogMarkers stdout then
      if _h : retry_count < MAX_RETRIES then
        run_command att file_name num_partitions (retry_count + 1) (idx + 1)
      else (file_name, [])
    else if returncode ≠ 0 then
      if _h : retry_count < MAX_RETRIES then
        run_command att file_name num_partitions (retry_count + 1) (idx + 1)
      else (file_name, [])
    else parse_output stdout file_name num_partitions
termination_by MAX_RETRIES + 1 - retry_count
decreasing_by all_goals (simp only [MAX_RETRIES] at *; omega)

/-- The number of solver invocations `run_command` performs from a given
`retry_count` (one per call, mirroring the recursion above). -/
def run_command_attempts (att : Nat → AttemptOutcome) (retry_count idx : Nat) : Nat :=
  match att idx with
  | .timeoutExpired => 1
  | .exception =>
    if _h : retry_count < MAX_RETRIES then
      1 + run_command_attempts att (retry_count + 1) (idx + 1)
    else 1
  | .completed stdout returncode =>
    if pyStrip stdout.data = [] then
      if _h : retry_count < MAX_RETRIES then
        1 + run_command_attempts att (retry_count + 1) (idx + 1)
      else 1
    else if ¬ hasLogMarkers stdout then
      if _h : retry_count < MAX_RETRIES then
        1 + run_command_attempts att (retry_count + 1) (idx + 1)
      else 1
    else if returncode ≠ 0 then
      if _h : retry_count < MAX_RETRIES then
        1 + run_command_attempts att (retry_count + 1) (idx + 1)
      else 1
    else 1
termination_by MAX_RETRIES + 1 - retry_count
decreasing_by all_goals (simp only [MAX_RETRIES] at *; omega)

end CollectMLFeatures

namespace CollectMLFeatures

/-- The per-line body of `get_processed_files`: decode failures
(`json.JSONDecodeError`) skip the line and continue; a decoded object
contributes its keys to the set; a decoded non-object raises
`AttributeError` at `data.keys()`, which escapes the per-line handler and
is caught by the function's outer handler, ending the scan with the set
accumulated so far. -/
def get_processed_files_go (acc : List String) : List String → List String
  | [] => acc
  | line :: rest =>
    match jsonLoads (pyStrip line.data) with
    | none => get_processed_files_go acc rest
    | some (.obj kvs) =>
        get_processed_files_go (acc ++ (dictKeys kvs).filter (fun k => k ∉ acc)) rest
    | some _ => acc

/-- `get_processed_files`: scan the existing JSONL store (given as its
lines) and collect the set of already-processed instance names. -/
def get_processed_files (lines : List String) : List String :=
  get_processed_files_go [] lines

/-- The keys a single store line contributes when it decodes to an
object (used to count the records an instance has in the store). -/
def lineKeys (line : String) : List String :=
  match jsonLoads (pyStrip line.data) with
  | some (.obj kvs) => dictKeys kvs
  | _ => []

/-- Number of store lines carrying a record for instance `f`. -/
def countRecords (f : String) (store : List String) : Nat :=
  store.countP (fun line => f ∈ lineKeys line)

/-- `json.dumps(result) `, the line appended for one instance:
`result = {file_name: log_items}`. -/
def result_line (file_name : String) (items : List JValue) : String :=
  String.mk (jsonDumps (.obj [(file_name, .arr items)]))

/-- One iteration of `collect_ml_features.main`'s loop over the state
`(corpus directory contents, store lines)`.  An instance in the processed
set is skipped before anything else (`continue`), leaving the state
unchanged; otherwise the solver runs (`runF inst`, abstracting
`run_command`), a line is appended only when the feature list is
non-empty, and the instance file is moved out of the corpus directory in
either case. -/
def process_instance (runF : String → List JValue) (processed : List String)
    (st : List String × List String) (inst : String) : List String × List String :=
  if inst ∈ processed then st
  else
    let items := runF inst
    let store := if items = [] then st.2 else st.2 ++ [result_line inst items]
    (st.1.erase inst, store)

/-- `collect_ml_features.main` over a corpus listing and an existing
store: the processed set is computed once up front, then every listed
instance is processed in order.  Returns the corpus directory contents
and the store lines after the run. -/
def main (runF : String → List JValue) (corpus : List String)
    (store : List String) : List String × List String :=
  corpus.foldl (process_instance runF (get_processed_files store)) (corpus, store)

/-- The instances a run of `main` actually invokes the solver on: those
the start-up processed set does not contain. -/
def attempted (corpus : List String) (store : List String) : List String :=
  corpus.filter (fun inst => inst ∉ get_processed_files store)

end CollectMLFeatures

namespace CollectMLFeatures

/-- The outcomes `run_command` treats as transient invocation failures
and retries: empty output, missing log-JSON markers, a non-zero exit
code, or a non-timeout exception.  A Python-level timeout is not among
them. -/
def isTransientFailure : AttemptOutcome → Bool
  | .timeoutExpired => false
  | .exception => true
  | .completed stdout returncode =>
      decide (pyStrip stdout.data = []) || !hasLogMarkers stdout || decide (returncode ≠ 0)

/-- The outcomes `run_command` accepts and parses: a completed process
with exit code 0, non-empty output and the log-JSON markers. -/
def isGoodAttempt : AttemptOutcome → Bool
  | .timeoutExpired => false
  | .exception => false
  | .completed stdout returncode =>
      !decide (pyStrip stdout.data = []) && hasLogMarkers stdout && decide (returncode = 0)

/-- The captured standard output of a completed attempt. -/
def attemptStdout : AttemptOutcome → String
  | .completed stdout _ => stdout
  | _ => ""

/-- The lines `main` appends over a run: one per instance that is not in
the start-up processed set and whose run yields a non-empty feature
list, in corpus order. -/
def appendedLines (runF : String → List JValue) (processed : List String)
    (insts : List String) : List String :=
  (insts.filter (fun g => decide (g ∉ processed) && decide (runF g ≠ []))).map
    (fun g => result_line g (runF g))

end CollectMLFeatures

/-! ## Helper lemmas -/

theorem dictGet_dictSet_self (k : String) (v : JValue) (d : List (String × JValue)) :
    dictGet k (dictSet k v d) = some v := by
  induction d with
  | nil => simp [dictSet, dictGet]
  | cons hd tl ih =>
    obtain ⟨k', v'⟩ := hd
    by_cases h : k' = k
    · simp [dictSet, dictGet, h]
    · simp [dictSet, dictGet, h, ih]

theorem dictGet_dictSet_ne (k k' : String) (v : JValue) (d : List (String × JValue))
    (h : k' ≠ k) : dictGet k' (dictSet k v d) = dictGet k' d := by
  induction d with
  | nil => simp [dictSet, dictGet, Ne.symm h]
  | cons hd tl ih =>
    obtain ⟨k0, v0⟩ := hd
    by_cases h0 : k0 = k
    · subst h0
      simp [dictSet, dictGet, Ne.symm h]
    · by_cases h1 : k0 = k'
      · subst h1
        simp [dictSet, dictGet, h0]
      · simp [dictSet, dictGet, h0, h1, ih]

theorem dictGet_dictUpdate_notMem (k : String) (d stats : List (String × JValue))
    (h : k ∉ dictKeys stats) : dictGet k (dictUpdate d stats) = dictGet k d := by
  induction stats generalizing d with
  | nil => simp [dictUpdate]
  | cons hd tl ih =>
    obtain ⟨k0, v0⟩ := hd
    simp only [dictKeys, List.map_cons, List.mem_cons] at h
    push_neg at h
    have step : dictUpdate d ((k0, v0) :: tl) = dictUpdate (dictSet k0 v0 d) tl := by
      simp [dictUpdate]
    rw [step, ih (dictSet k0 v0 d) (by simpa [dictKeys] using h.2),
      dictGet_dictSet_ne k0 k v0 d h.1]

namespace ExtractTerminationStats

theorem le_foldl_max (l : List Int) : ∀ a : Int, a ≤ l.foldl max a := by
  induction l with
  | nil => intro a; simp
  | cons b t ih =>
    intro a
    calc a ≤ max a b := le_max_left a b
    _ ≤ t.foldl max (max a b) := ih (max a b)

theorem mem_le_foldl_max (l : List Int) : ∀ (a y : Int), y ∈ l → y ≤ l.foldl max a := by
  induction l with
  | nil => intro a y hy; simp at hy
  | cons b t ih =>
    intro a y hy
    rcases List.mem_cons.mp hy with h | h
    · subst h
      calc y ≤ max a y := le_max_right a y
      _ ≤ t.foldl max (max a y) := le_foldl_max t (max a y)
    · exact ih (max a b) y h

theorem foldl_max_mem (l : List Int) : ∀ a : Int, l.foldl max a = a ∨ l.foldl max a ∈ l := by
  induction l with
  | nil => intro a; simp
  | cons b t ih =>
    intro a
    rcases ih (max a b) with h | h
    · rcases max_choice a b with hm | hm
      · left; simp only [List.foldl_cons]; rw [h, hm]
      · right; simp only [List.foldl_cons]; rw [h, hm]; exact List.mem_cons_self b t
    · right; exact List.mem_cons_of_mem b h

theorem listMax_mem (xs : List Int) (h : xs ≠ []) : listMax xs ∈ xs := by
  match xs with
  | [] => exact absurd rfl h
  | x :: rest =>
    simp only [listMax]
    rcases foldl_max_mem rest x with h0 | h0
    · rw [h0]; exact List.mem_cons_self x rest
    · exact List.mem_cons_of_mem x h0

theorem le_listMax (xs : List Int) (y : Int) (h : y ∈ xs) : y ≤ listMax xs := by
  match xs with
  | [] => simp at h
  | x :: rest =>
    simp only [listMax]
    rcases List.mem_cons.mp h with h0 | h0
    · subst h0; exact le_foldl_max rest y
    · exact mem_le_foldl_max rest x y h0

theorem foldl_min_le (l : List Int) : ∀ a : Int, l.foldl min a ≤ a := by
  induction l with
  | nil => intro a; simp
  | cons b t ih =>
    intro a
    calc t.foldl min (min a b) ≤ min a b := ih (min a b)
    _ ≤ a := min_le_left a b

theorem foldl_min_le_mem (l : List Int) : ∀ (a y : Int), y ∈ l → l.foldl min a ≤ y := by
  induction l with
  | nil => intro a y hy; simp at hy
  | cons b t ih =>
    intro a y hy
    rcases List.mem_cons.mp hy with h | h
    · subst h
      calc t.foldl min (min a y) ≤ min a y := foldl_min_le t (min a y)
      _ ≤ y := min_le_right a y
    · exact ih (min a b) y h

theorem foldl_min_mem (l : List Int) : ∀ a : Int, l.foldl min a = a ∨ l.foldl min a ∈ l := by
  induction l with
  | nil => intro a; simp
  | cons b t ih =>
    intro a
    rcases ih (min a b) with h | h
    · rcases min_choice a b with hm | hm
      · left; simp only [List.foldl_cons]; rw [h, hm]
      · right; simp only [List.foldl_cons]; rw [h, hm]; exact List.mem_cons_self b t
    · right; exact List.mem_cons_of_mem b h

theorem listMin_mem (xs : List Int) (h : xs ≠ []) : listMin xs ∈ xs := by
  match xs with
  | [] => exact absurd rfl h
  | x :: rest =>
    simp only [listMin]
    rcases foldl_min_mem rest x with h0 | h0
    · rw [h0]; exact List.mem_cons_self x rest
    · exact List.mem_cons_of_mem x h0

theorem listMin_le (xs : List Int) (y : Int) (h : y ∈ xs) : listMin xs ≤ y := by
  match xs with
  | [] => simp at h
  | x :: rest =>
    simp only [listMin]
    rcases List.mem_cons.mp h with h0 | h0
    · subst h0; exact foldl_min_le rest y
    · exact foldl_min_le_mem rest x y h0

end ExtractTerminationStats

namespace CollectMLFeatures

theorem foldl_lastEvent_eq_some (name : String) (l : List JValue) :
    ∀ (acc : Option JValue) (t : JValue),
      l.foldl (fun acc e => if eventName e = some name then some e else acc) acc = some t →
      acc = some t ∨ (t ∈ l ∧ eventName t = some name) := by
  induction l with
  | nil => intro acc t h; exact Or.inl h
  | cons b rest ih =>
    intro acc t h
    simp only [List.foldl_cons] at h
    rcases ih _ t h with h0 | h0
    · by_cases hb : eventName b = some name
      · simp only [hb, if_pos rfl] at h0
        right
        exact ⟨by rw [← Option.some_inj.mp h0]; exact List.mem_cons_self b rest,
          by rw [← Option.some_inj.mp h0]; exact hb⟩
      · simp only [if_neg hb] at h0
        exact Or.inl h0
    · exact Or.inr ⟨List.mem_cons_of_mem b h0.1, h0.2⟩

theorem lastEventEntry_eq_some (name : String) (l : List JValue) (t : JValue)
    (h : lastEventEntry name l = some t) : t ∈ l ∧ eventName t = some name := by
  rcases foldl_lastEvent_eq_some name l none t h with h0 | h0
  · cases h0
  · exact h0

theorem foldl_lastEvent_isSome (name : String) (l : List JValue) :
    ∀ (acc : Option JValue), (acc.isSome ∨ ∃ x ∈ l, eventName x = some name) →
      (l.foldl (fun acc e => if eventName e = some name then some e else acc) acc).isSome := by
  induction l with
  | nil =>
    intro acc h
    rcases h with h | h
    · exact h
    · simp at h
  | cons b rest ih =>
    intro acc h
    simp only [List.foldl_cons]
    by_cases hb : eventName b = some name
    · exact ih _ (Or.inl (by simp [hb]))
    · apply ih
      rcases h with h | h
      · exact Or.inl (by simp [hb, h])
      · rcases h with ⟨x, hx, hev⟩
        rcases List.mem_cons.mp hx with h0 | h0
        · subst h0; exact absurd hev hb
        · exact Or.inr ⟨x, h0, hev⟩

theorem lastEventEntry_isSome (name : String) (l : List JValue)
    (h : ∃ x ∈ l, eventName x = some name) : (lastEventEntry name l).isSome :=
  foldl_lastEvent_isSome name l none (Or.inr h)

theorem mem_append_sentinel (log l : List JValue) (w : JValue)
    (hl : ∀ y ∈ l, y ∈ log) (hw : w ∈ log) :
    ∀ y ∈ (if w ∈ l then l else l ++ [w]), y ∈ log := by
  intro y hy
  split at hy
  · exact hl y hy
  · rcases List.mem_append.mp hy with h0 | h0
    · exact hl y h0
    · rw [List.mem_singleton.mp h0]; exact hw

theorem mem_log_items (log : List JValue) (k : Nat) (x : JValue)
    (h : x ∈ log_items log k) : x ∈ log := by
  simp only [log_items] at h
  have take_sub : ∀ y : JValue, y ∈ log.take k → y ∈ log :=
    fun y hy => List.take_subset k log hy
  rcases h1 : lastEventEntry "TIMEOUT" log with _ | t
  all_goals rcases h2 : lastEventEntry "TERMINATE" log with _ | u
  all_goals simp only [h1, h2] at h
  · exact take_sub x h
  · exact mem_append_sentinel log _ u take_sub (lastEventEntry_eq_some _ _ _ h2).1 x h
  · exact mem_append_sentinel log _ t take_sub (lastEventEntry_eq_some _ _ _ h1).1 x h
  · have ht := (lastEventEntry_eq_some _ _ _ h1).1
    have hu := (lastEventEntry_eq_some _ _ _ h2).1
    exact mem_append_sentinel log _ u
      (mem_append_sentinel log _ t take_sub ht) hu x h

end CollectMLFeatures

namespace CollectMLFeatures

theorem length_if_sentinel (l : List JValue) (w : JValue) :
    (if w ∈ l then l else l ++ [w]).length ≤ l.length + 1 := by
  split
  · omega
  · simp only [List.length_append, List.length_singleton]; omega

theorem log_items_length_le (log : List JValue) (k : Nat) :
    (log_items log k).length ≤ k + 2 := by
  simp only [log_items]
  have h0 : (log.take k).length ≤ k := List.length_take_le k log
  rcases h1 : lastEventEntry "TIMEOUT" log with _ | t
  all_goals rcases h2 : lastEventEntry "TERMINATE" log with _ | u
  all_goals simp only [h1, h2]
  · omega
  · have := length_if_sentinel (log.take k) u; omega
  · have := length_if_sentinel (log.take k) t; omega
  · have ha := length_if_sentinel (log.take k) t
    have hb := length_if_sentinel (if t ∈ log.take k then log.take k else log.take k ++ [t]) u
    omega

theorem nodup_append_sentinel (l : List JValue) (w : JValue) (h : l.Nodup) :
    (if w ∈ l then l else l ++ [w]).Nodup := by
  split
  · exact h
  · rename_i hw
    simp [List.nodup_append, h, hw]

theorem log_items_nodup (log : List JValue) (k : Nat) (h : (log.take k).Nodup) :
    (log_items log k).Nodup := by
  simp only [log_items]
  rcases h1 : lastEventEntry "TIMEOUT" log with _ | t
  all_goals rcases h2 : lastEventEntry "TERMINATE" log with _ | u
  all_goals simp only [h1, h2]
  · exact h
  · exact nodup_append_sentinel _ u h
  · exact nodup_append_sentinel _ t h
  · exact nodup_append_sentinel _ u (nodup_append_sentinel _ t h)

theorem mem_if_sentinel (l : List JValue) (w : JValue) :
    w ∈ (if w ∈ l then l else l ++ [w]) := by
  split
  · assumption
  · exact List.mem_append_right l (List.mem_singleton_self w)

theorem sub_if_sentinel (l : List JValue) (w x : JValue) (h : x ∈ l) :
    x ∈ (if w ∈ l then l else l ++ [w]) := by
  split
  · exact h
  · exact List.mem_append_left [w] h

theorem timeout_mem_log_items (log : List JValue) (k : Nat) (t : JValue)
    (h : lastEventEntry "TIMEOUT" log = some t) : t ∈ log_items log k := by
  simp only [log_items, h]
  rcases h2 : lastEventEntry "TERMINATE" log with _ | u
  all_goals simp only [h2]
  · exact mem_if_sentinel _ t
  · exact sub_if_sentinel _ u t (mem_if_sentinel _ t)

theorem terminate_mem_log_items (log : List JValue) (k : Nat) (u : JValue)
    (h : lastEventEntry "TERMINATE" log = some u) : u ∈ log_items log k := by
  simp only [log_items, h]
  rcases h1 : lastEventEntry "TIMEOUT" log with _ | t
  all_goals simp only [h1]
  · exact mem_if_sentinel _ u
  · exact mem_if_sentinel _ u

end CollectMLFeatures

namespace CollectMLFeatures

theorem run_command_step (att : Nat → AttemptOutcome) (f : String) (k : Nat) (retry idx : Nat)
    (ht : isTransientFailure (att idx) = true) (hr : retry < MAX_RETRIES) :
    run_command att f k retry idx = run_command att f k (retry + 1) (idx + 1) := by
  rw [run_command]
  cases hatt : att idx with
  | timeoutExpired => rw [hatt] at ht; simp [isTransientFailure] at ht
  | exception => simp [hatt, hr]
  | completed stdout returncode =>
    rw [hatt] at ht
    simp only [isTransientFailure, Bool.or_eq_true, Bool.not_eq_true', decide_eq_true_eq] at ht
    simp only [hatt]
    by_cases he : pyStrip stdout.data = []
    · simp [he, hr]
    · by_cases hm : hasLogMarkers stdout
      · have h0 : returncode ≠ 0 := by simp_all
        simp [he, hm, h0, hr]
      · simp [he, hm, hr]

theorem run_command_exhaust (att : Nat → AttemptOutcome) (f : String) (k : Nat) (idx : Nat)
    (ht : isTransientFailure (att idx) = true) :
    run_command att f k MAX_RETRIES idx = (f, []) := by
  rw [run_command]
  cases hatt : att idx with
  | timeoutExpired => rfl
  | exception => simp [hatt]
  | completed stdout returncode =>
    rw [hatt] at ht
    simp only [isTransientFailure, Bool.or_eq_true, Bool.not_eq_true', decide_eq_true_eq] at ht
    simp only [hatt]
    by_cases he : pyStrip stdout.data = []
    · simp [he]
    · by_cases hm : hasLogMarkers stdout
      · have h0 : returncode ≠ 0 := by simp_all
        simp [he, hm, h0]
      · simp [he, hm]

theorem run_command_good (att : Nat → AttemptOutcome) (f : String) (k : Nat) (retry idx : Nat)
    (hg : isGoodAttempt (att idx) = true) :
    run_command att f k retry idx = parse_output (attemptStdout (att idx)) f k := by
  rw [run_command]
  cases hatt : att idx with
  | timeoutExpired => rw [hatt] at hg; simp [isGoodAttempt] at hg
  | exception => rw [hatt] at hg; simp [isGoodAttempt] at hg
  | completed stdout returncode =>
    rw [hatt] at hg
    simp only [isGoodAttempt, Bool.and_eq_true, Bool.not_eq_true', decide_eq_true_eq,
      decide_eq_false_iff_not] at hg
    simp [hatt, hg.1.1, hg.1.2, hg.2, attemptStdout]

theorem run_command_timeout (att : Nat → AttemptOutcome) (f : String) (k : Nat) (retry idx : Nat)
    (h : att idx = .timeoutExpired) :
    run_command att f k retry idx = (f, []) := by
  rw [run_command, h]

theorem run_command_attempts_step (att : Nat → AttemptOutcome) (retry idx : Nat)
    (ht : isTransientFailure (att idx) = true) (hr : retry < MAX_RETRIES) :
    run_command_attempts att retry idx = 1 + run_command_attempts att (retry + 1) (idx + 1) := by
  rw [run_command_attempts]
  cases hatt : att idx with
  | timeoutExpired => rw [hatt] at ht; simp [isTransientFailure] at ht
  | exception => simp [hatt, hr]
  | completed stdout returncode =>
    rw [hatt] at ht
    simp only [isTransientFailure, Bool.or_eq_true, Bool.not_eq_true', decide_eq_true_eq] at ht
    simp only [hatt]
    by_cases he : pyStrip stdout.data = []
    · simp [he, hr]
    · by_cases hm : hasLogMarkers stdout
      · have h0 : returncode ≠ 0 := by simp_all
        simp [he, hm, h0, hr]
      · simp [he, hm, hr]

theorem run_command_attempts_exhaust (att : Nat → AttemptOutcome) (idx : Nat)
    (ht : isTransientFailure (att idx) = true) :
    run_command_attempts att MAX_RETRIES idx = 1 := by
  rw [run_command_attempts]
  cases hatt : att idx with
  | timeoutExpired => rfl
  | exception => simp [hatt]
  | completed stdout returncode =>
    rw [hatt] at ht
    simp only [isTransientFailure, Bool.or_eq_true, Bool.not_eq_true', decide_eq_true_eq] at ht
    simp only [hatt]
    by_cases he : pyStrip stdout.data = []
    · simp [he]
    · by_cases hm : hasLogMarkers stdout
      · have h0 : returncode ≠ 0 := by simp_all
        simp [he, hm, h0]
      · simp [he, hm]

theorem run_command_attempts_good (att : Nat → AttemptOutcome) (retry idx : Nat)
    (hg : isGoodAttempt (att idx) = true) :
    run_command_attempts att retry idx = 1 := by
  rw [run_command_attempts]
  cases hatt : att idx with
  | timeoutExpired => rfl
  | exception => rw [hatt] at hg; simp [isGoodAttempt] at hg
  | completed stdout returncode =>
    rw [hatt] at hg
    simp only [isGoodAttempt, Bool.and_eq_true, Bool.not_eq_true', decide_eq_true_eq,
      decide_eq_false_iff_not] at hg
    simp only [hatt]
    simp [hg.1.1, hg.1.2, hg.2]

theorem run_command_attempts_timeout (att : Nat → AttemptOutcome) (retry idx : Nat)
    (h : att idx = .timeoutExpired) :
    run_command_attempts att retry idx = 1 := by
  rw [run_command_attempts, h]

end CollectMLFeatures

namespace CollectMLFeatures

theorem get_processed_files_go_mem (f : String) :
    ∀ (lines : List String) (acc : List String),
      (∀ line ∈ lines, jsonLoads (pyStrip line.data) = none ∨
        ∃ kvs, jsonLoads (pyStrip line.data) = some (.obj kvs)) →
      (f ∈ get_processed_files_go acc lines ↔ f ∈ acc ∨ ∃ line ∈ lines, f ∈ lineKeys line) := by
  intro lines
  induction lines with
  | nil => intro acc _; simp [get_processed_files_go]
  | cons line rest ih =>
    intro acc hdec
    rcases hdec line (List.mem_cons_self line rest) with h0 | ⟨kvs, h0⟩
    · have hk : lineKeys line = [] := by simp [lineKeys, h0]
      simp only [get_processed_files_go, h0]
      rw [ih acc (fun l hl => hdec l (List.mem_cons_of_mem line hl))]
      simp [hk]
    · have hk : lineKeys line = dictKeys kvs := by simp [lineKeys, h0]
      simp only [get_processed_files_go, h0]
      rw [ih _ (fun l hl => hdec l (List.mem_cons_of_mem line hl))]
      constructor
      · rintro (hmem | hrest)
        · rcases List.mem_append.mp hmem with h | h
          · exact Or.inl h
          · exact Or.inr ⟨line, List.mem_cons_self line rest, by
              rw [hk]; exact (List.mem_filter.mp h).1⟩
        · rcases hrest with ⟨l, hl, hfl⟩
          exact Or.inr ⟨l, List.mem_cons_of_mem line hl, hfl⟩
      · rintro (hacc | ⟨l, hl, hfl⟩)
        · exact Or.inl (List.mem_append_left _ hacc)
        · rcases List.mem_cons.mp hl with h | h
          · subst h
            by_cases ha : f ∈ acc
            · exact Or.inl (List.mem_append_left _ ha)
            · refine Or.inl (List.mem_append_right _ ?_)
              rw [hk] at hfl
              exact List.mem_filter.mpr ⟨hfl, by simpa using ha⟩
          · exact Or.inr ⟨l, h, hfl⟩

theorem get_processed_files_mem (f : String) (store : List String)
    (hdec : ∀ line ∈ store, jsonLoads (pyStrip line.data) = none ∨
      ∃ kvs, jsonLoads (pyStrip line.data) = some (.obj kvs)) :
    f ∈ get_processed_files store ↔ ∃ line ∈ store, f ∈ lineKeys line := by
  rw [get_processed_files, get_processed_files_go_mem f store [] hdec]
  simp

theorem main_store_eq (runF : String → List JValue) (processed : List String) :
    ∀ (insts : List String) (st : List String × List String),
      (insts.foldl (process_instance runF processed) st).2 =
        st.2 ++ appendedLines runF processed insts := by
  intro insts
  induction insts with
  | nil => intro st; simp [appendedLines]
  | cons i rest ih =>
    intro st
    simp only [List.foldl_cons]
    by_cases hp : i ∈ processed
    · have hpi : process_instance runF processed st i = st := by
        simp [process_instance, hp]
      rw [hpi, ih]
      have : appendedLines runF processed (i :: rest) = appendedLines runF processed rest := by
        simp [appendedLines, List.filter_cons, hp]
      rw [this]
    · by_cases hrun : runF i = []
      · have hpi : process_instance runF processed st i = (st.1.erase i, st.2) := by
          simp [process_instance, hp, hrun]
        rw [hpi, ih]
        have : appendedLines runF processed (i :: rest) = appendedLines runF processed rest := by
          simp [appendedLines, List.filter_cons, hp, hrun]
        rw [this]
      · have hpi : process_instance runF processed st i =
            (st.1.erase i, st.2 ++ [result_line i (runF i)]) := by
          simp [process_instance, hp, hrun]
        rw [hpi, ih]
        have : appendedLines runF processed (i :: rest) =
            result_line i (runF i) :: appendedLines runF processed rest := by
          simp [appendedLines, List.filter_cons, hp, hrun]
        rw [this]
        simp

theorem ml_main_store (runF : String → List JValue) (corpus store : List String) :
    (main runF corpus store).2 =
      store ++ appendedLines runF (get_processed_files store) corpus :=
  main_store_eq runF (get_processed_files store) corpus (corpus, store)

theorem countP_eq_self_of_nodup (l : List String) (f : String) (h : l.Nodup) :
    l.countP (fun g => decide (g = f)) = if f ∈ l then 1 else 0 := by
  induction l with
  | nil => simp
  | cons a t ih =>
    rw [List.nodup_cons] at h
    rw [List.countP_cons]
    by_cases ha : a = f
    · subst ha
      have ht : t.countP (fun g => decide (g = a)) = 0 :=
        List.countP_eq_zero.mpr (fun g hg => by
          simp only [decide_eq_true_eq]
          rintro rfl
          exact h.1 hg)
      simp [ht]
    · rw [ih h.2]
      by_cases hf : f ∈ t
      · simp [hf, ha, List.mem_cons]
      · have hfa : ¬f = a := fun hh => ha hh.symm
        have : f ∉ a :: t := by simp [List.mem_cons, hf, hfa]
        simp [hf, ha, this]

end CollectMLFeatures

namespace CollectMLFeatures

theorem countRecords_appendedLines (f : String) (runF : String → List JValue)
    (processed insts : List String)
    (hround : ∀ g ∈ insts, runF g ≠ [] → lineKeys (result_line g (runF g)) = [g]) :
    countRecords f (appendedLines runF processed insts) =
      (insts.filter (fun g => decide (g ∉ processed) && decide (runF g ≠ []))).countP
        (fun g => decide (g = f)) := by
  rw [countRecords, appendedLines, List.countP_map]
  apply List.countP_congr
  intro g hg
  have hg1 := List.mem_filter.mp hg
  have hcond := hg1.2
  simp only [Bool.and_eq_true, decide_eq_true_eq] at hcond
  have hk := hround g hg1.1 hcond.2
  simp only [Function.comp_apply, hk, List.mem_singleton]
  by_cases h : g = f
  · simp [h]
  · have hfg : ¬f = g := fun hh => h hh.symm
    simp [h, hfg]

theorem countRecords_pos_iff (f : String) (store : List String) :
    0 < countRecords f store ↔ ∃ line ∈ store, f ∈ lineKeys line := by
  rw [countRecords, List.countP_pos_iff]
  simp

theorem countRecords_after_main (runF : String → List JValue) (corpus store : List String)
    (f : String)
    (hdec : ∀ line ∈ store, jsonLoads (pyStrip line.data) = none ∨
      ∃ kvs, jsonLoads (pyStrip line.data) = some (.obj kvs))
    (hone : countRecords f store ≤ 1)
    (hnodup : corpus.Nodup)
    (hround : ∀ g ∈ corpus, runF g ≠ [] → lineKeys (result_line g (runF g)) = [g])
    (hf : f ∈ corpus)
    (huse : f ∈ get_processed_files store ∨ runF f ≠ []) :
    countRecords f (main runF corpus store).2 = 1 := by
  rw [ml_main_store, countRecords, List.countP_append, ← countRecords, ← countRecords,
    countRecords_appendedLines f runF _ corpus hround]
  have hfiltered := List.Nodup.filter
    (fun g => decide (g ∉ get_processed_files store) && decide (runF g ≠ [])) hnodup
  rw [countP_eq_self_of_nodup _ f hfiltered]
  by_cases hp : f ∈ get_processed_files store
  · have hpos : 0 < countRecords f store :=
      (countRecords_pos_iff f store).mpr ((get_processed_files_mem f store hdec).mp hp)
    have hnotf : f ∉ List.filter
        (fun g => decide (g ∉ get_processed_files store) && decide (runF g ≠ [])) corpus := by
      intro hmem
      have := (List.mem_filter.mp hmem).2
      simp only [Bool.and_eq_true, decide_eq_true_eq] at this
      exact this.1 hp
    simp only [hnotf, if_false]
    omega
  · have hzero : countRecords f store = 0 := by
      rw [countRecords, List.countP_eq_zero]
      intro line hline
      simp only [decide_eq_true_eq]
      intro hfl
      exact hp ((get_processed_files_mem f store hdec).mpr ⟨line, hline, hfl⟩)
    have hrunf : runF f ≠ [] := by
      rcases huse with h | h
      · exact absurd h hp
      · exact h
    have hmemf : f ∈ List.filter
        (fun g => decide (g ∉ get_processed_files store) && decide (runF g ≠ [])) corpus :=
      List.mem_filter.mpr ⟨hf, by simp [hp, hrunf]⟩
    simp only [hmemf, if_true]
    omega

theorem main_fst_subset (runF : String → List JValue) (processed : List String) :
    ∀ (insts : List String) (st : List String × List String),
      (insts.foldl (process_instance runF processed) st).1 ⊆ st.1 := by
  intro insts
  induction insts with
  | nil => intro st; simp
  | cons i rest ih =>
    intro st
    simp only [List.foldl_cons]
    refine (ih (process_instance runF processed st i)).trans ?_
    simp only [process_instance]
    split
    · exact fun x hx => hx
    · exact fun x hx => List.mem_of_mem_erase hx

theorem main_fst_not_mem (runF : String → List JValue) (processed : List String)
    (f : String) (hP : f ∉ processed) :
    ∀ (insts : List String) (st : List String × List String),
      f ∈ insts → st.1.count f ≤ 1 →
      f ∉ (insts.foldl (process_instance runF processed) st).1 := by
  intro insts
  induction insts with
  | nil => intro st hf _; simp at hf
  | cons i rest ih =>
    intro st hf hcount
    simp only [List.foldl_cons]
    by_cases hif : i = f
    · subst hif
      have hstep : (process_instance runF processed st i).1 = st.1.erase i := by
        simp only [process_instance, if_neg hP]
      have hnot : i ∉ (process_instance runF processed st i).1 := by
        rw [hstep]
        intro hmem
        have h1 : st.1.count i ≥ 1 := List.one_le_count_iff.mpr (List.mem_of_mem_erase hmem)
        have h2 : (st.1.erase i).count i = st.1.count i - 1 := List.count_erase_self i st.1
        have h3 : (st.1.erase i).count i ≥ 1 := List.one_le_count_iff.mpr hmem
        omega
      intro hmem
      exact hnot (main_fst_subset runF processed rest _ hmem)
    · have hfr : f ∈ rest := by
        rcases List.mem_cons.mp hf with h | h
        · exact absurd h.symm hif
        · exact h
      apply ih (process_instance runF processed st i) hfr
      simp only [process_instance]
      split
      · exact hcount
      · calc (st.1.erase i).count f = st.1.count f :=
              List.count_erase_of_ne (fun hh => hif hh.symm) st.1
        _ ≤ 1 := hcount

end CollectMLFeatures

namespace CollectData

theorem parse_output_get_sums (output i : String) (xs : List Int)
    (h : extractSums output.data = some xs) :
    dictGet "sums" (parse_output output i) = some (.arr (xs.map .num)) := by
  have e1 : ∀ (d : List (String × JValue)) (v : JValue),
      dictGet "sums" (dictSet "pi" v d) = dictGet "sums" d :=
    fun d v => dictGet_dictSet_ne "pi" "sums" v d (by decide)
  have e2 : ∀ (d : List (String × JValue)) (v : JValue),
      dictGet "sums" (dictSet "maxsum" v d) = dictGet "sums" d :=
    fun d v => dictGet_dictSet_ne "maxsum" "sums" v d (by decide)
  have e3 : ∀ (d : List (String × JValue)) (v : JValue),
      dictGet "sums" (dictSet "time" v d) = dictGet "sums" d :=
    fun d v => dictGet_dictSet_ne "time" "sums" v d (by decide)
  simp only [parse_output, h]
  rcases h3 : extractPi output.data with _ | pis <;>
    rcases h4 : extractMaxsum output.data with _ | mx <;>
      rcases h5 : extractTime output.data with _ | tm <;>
        simp only [e1, e2, e3, dictGet_dictSet_self]

end CollectData

namespace CollectData

theorem parse_output_fields (output i : String)
    (hjson : ∀ k ∈ (match embeddedJsonStats output.data with
      | some kvs => dictKeys kvs
      | none => ([] : List String)),
      ¬(k = "file" ∨ k = "sums" ∨ k = "pi" ∨ k = "maxsum" ∨ k = "time")) :
    dictGet "file" (parse_output output i) = some (.str i) ∧
    dictGet "sums" (parse_output output i) =
      (extractSums output.data).map (fun xs => .arr (xs.map .num)) ∧
    dictGet "pi" (parse_output output i) =
      (extractPi output.data).map (fun xs => .arr (xs.map .num)) ∧
    dictGet "maxsum" (parse_output output i) = (extractMaxsum output.data).map .num ∧
    dictGet "time" (parse_output output i) = (extractTime output.data).map .num := by
  have hr1 : ∀ key : String,
      key = "file" ∨ key = "sums" ∨ key = "pi" ∨ key = "maxsum" ∨ key = "time" →
      dictGet key (match embeddedJsonStats output.data with
        | some stats => dictUpdate [("file", JValue.str i)] stats
        | none => [("file", JValue.str i)]) = dictGet key [("file", JValue.str i)] := by
    intro key hkey
    rcases hj : embeddedJsonStats output.data with _ | kvs
    · simp
    · simp only
      refine dictGet_dictUpdate_notMem key _ kvs ?_
      intro hmem
      rw [hj] at hjson
      exact hjson key hmem hkey
  simp only [parse_output]
  rcases h2 : extractSums output.data with _ | sums <;>
    rcases h3 : extractPi output.data with _ | pis <;>
      rcases h4 : extractMaxsum output.data with _ | mx <;>
        rcases h5 : extractTime output.data with _ | tm <;>
          refine ⟨?_, ?_, ?_, ?_, ?_⟩ <;>
            simp only [Option.map_some, Option.map_none] <;>
              (try rw [dictGet_dictSet_ne _ _ _ _ (by decide)]) <;>
                (try rw [dictGet_dictSet_self]) <;>
                  (try rw [dictGet_dictSet_ne _ _ _ _ (by decide)]) <;>
                    (try rw [dictGet_dictSet_self]) <;>
                      (try rw [dictGet_dictSet_ne _ _ _ _ (by decide)]) <;>
                        (try rw [dictGet_dictSet_self]) <;>
                          (try rw [dictGet_dictSet_ne _ _ _ _ (by decide)]) <;>
                            (try rw [hr1 _ (by tauto)]) <;>
                              (try rfl)
end CollectData

/-! ## The claims -/

/-- C1, counterexample.  The claim asserts that parsing the malformed
array `Sums: [3, 5,]` yields `[3, 5]` after repair.  On the code, the
trailing comma makes the per-piece `int()` conversion raise, so
`collect_data.parse_output` omits the `sums` field entirely and
`extract_termination_stats.parse_solver_output` returns `None`; neither
parser yields `[3, 5]`. -/
theorem C1_counterexample :
    dictGet "sums" (CollectData.parse_output "Sums: [3, 5,]" "i.txt") = none ∧
    dictGet "sums" (CollectData.parse_output "Sums: [3, 5,]" "i.txt") ≠
      some (.arr [.num 3, .num 5]) ∧
    ExtractTerminationStats.parse_solver_output "Sums: [3, 5,]" = none := by
  decide

/-- C1, amended.  For every solver output text whose `Sums: [<csv ints>]`
capture converts to an integer list `xs`, the scalar/array parser stores
exactly `xs` in the `sums` field; parsing `Sums: [3, 5, 12]` yields
`[3, 5, 12]` in both scalar/array parsers; but a malformed array with a
trailing comma such as `Sums: [3, 5,]` is not repaired: the conversion
fails, so the field is omitted (`collect_data`) or the parse returns
`None` (`extract_termination_stats`).  The trailing-comma repair exists
only in the log-JSON mode of `collect_ml_features`, where it does map
`[3, 5,]` to `[3, 5]`. -/
theorem C1_sums_extraction :
    (∀ (output i : String) (xs : List Int),
        CollectData.extractSums output.data = some xs →
        dictGet "sums" (CollectData.parse_output output i) =
          some (.arr (xs.map .num))) ∧
    CollectData.extractSums "Sums: [3, 5, 12]".data = some [3, 5, 12] ∧
    dictGet "sums" (CollectData.parse_output "Sums: [3, 5, 12]" "i.txt") =
      some (.arr [.num 3, .num 5, .num 12]) ∧
    (ExtractTerminationStats.parse_solver_output "Sums: [3, 5, 12]").map
      ExtractTerminationStats.TermStats.sums = some [3, 5, 12] ∧
    dictGet "sums" (CollectData.parse_output "Sums: [3, 5,]" "i.txt") = none ∧
    ExtractTerminationStats.parse_solver_output "Sums: [3, 5,]" = none ∧
    CollectMLFeatures.stripTrailingCommas "[3, 5,]".data = "[3, 5]".data := by
  refine ⟨CollectData.parse_output_get_sums, ?_⟩
  decide

/-- C1, witness for the amended theorem's universally quantified part,
instantiated at the output `Sums: [3, 5, 12]`. -/
theorem C1_sums_extraction_witness :
    CollectData.extractSums "Sums: [3, 5, 12]".data = some [3, 5, 12] ∧
    dictGet "sums" (CollectData.parse_output "Sums: [3, 5, 12]" "w.txt") =
      some (.arr [.num 3, .num 5, .num 12]) :=
  ⟨by decide, C1_sums_extraction.1 "Sums: [3, 5, 12]" "w.txt" [3, 5, 12] (by decide)⟩

/-- C9.  For every output whose `Sums` capture converts to a non-empty
integer list `xs`, the Termination Statistics Pass reports the maximum,
the minimum and the sample variance of `xs` (0 for fewer than two sums);
in particular `[10, 10, 10]` yields max=10, min=10, variance=0 and
`[4, 10]` yields max=10, min=4, variance=18. -/
theorem C9_termination_stats :
    (∀ (output : String) (xs : List Int),
        (searchLazy "Sums: [".data ']' output.data).bind parseCsvInts = some xs →
        xs ≠ [] →
        ∃ ts, ExtractTerminationStats.parse_solver_output output = some ts ∧
          ts.sums = xs ∧
          ts.subset_sum_max ∈ xs ∧ (∀ y ∈ xs, y ≤ ts.subset_sum_max) ∧
          ts.subset_sum_min ∈ xs ∧ (∀ y ∈ xs, ts.subset_sum_min ≤ y) ∧
          ts.subset_sum_variance =
            (if xs.length > 1 then ExtractTerminationStats.sampleVariance xs else 0)) ∧
    ExtractTerminationStats.parse_solver_output "Sums: [10, 10, 10]" =
      some ⟨10, 10, 0, [10, 10, 10]⟩ ∧
    ExtractTerminationStats.parse_solver_output "Sums: [4, 10]" =
      some ⟨10, 4, 18, [4, 10]⟩ := by
  refine ⟨?_, ?_, ?_⟩
  · intro output xs h hne
    obtain ⟨cap, hcap, hcsv⟩ := Option.bind_eq_some.mp h
    have hps : ExtractTerminationStats.parse_solver_output output =
        some ⟨ExtractTerminationStats.listMax xs, ExtractTerminationStats.listMin xs,
          if xs.length > 1 then ExtractTerminationStats.sampleVariance xs else 0, xs⟩ := by
      simp only [ExtractTerminationStats.parse_solver_output, hcap, hcsv, if_neg hne]
    exact ⟨_, hps, rfl, ExtractTerminationStats.listMax_mem xs hne,
      fun y hy => ExtractTerminationStats.le_listMax xs y hy,
      ExtractTerminationStats.listMin_mem xs hne,
      fun y hy => ExtractTerminationStats.listMin_le xs y hy, rfl⟩
  · have hcap : searchLazy "Sums: [".data ']' "Sums: [10, 10, 10]".data =
        some "10, 10, 10".data := by decide
    have hcsv : parseCsvInts "10, 10, 10".data = some [10, 10, 10] := by decide
    simp only [ExtractTerminationStats.parse_solver_output, hcap, hcsv]
    rw [if_neg (by decide : ¬([10, 10, 10] : List Int) = [])]
    simp only [Option.some.injEq, ExtractTerminationStats.TermStats.mk.injEq]
    refine ⟨by decide, by decide, ?_, by trivial⟩
    rw [if_pos (by decide : ([10, 10, 10] : List Int).length > 1)]
    simp only [ExtractTerminationStats.sampleVariance, List.map_cons, List.map_nil,
      List.sum_cons, List.sum_nil, List.length_cons, List.length_nil]
    norm_num
  · have hcap : searchLazy "Sums: [".data ']' "Sums: [4, 10]".data =
        some "4, 10".data := by decide
    have hcsv : parseCsvInts "4, 10".data = some [4, 10] := by decide
    simp only [ExtractTerminationStats.parse_solver_output, hcap, hcsv]
    rw [if_neg (by decide : ¬([4, 10] : List Int) = [])]
    simp only [Option.some.injEq, ExtractTerminationStats.TermStats.mk.injEq]
    refine ⟨by decide, by decide, ?_, by trivial⟩
    rw [if_pos (by decide : ([4, 10] : List Int).length > 1)]
    simp only [ExtractTerminationStats.sampleVariance, List.map_cons, List.map_nil,
      List.sum_cons, List.sum_nil, List.length_cons, List.length_nil]
    norm_num

/-- C9, witness: the general statement applied at `Sums: [4, 10]`. -/
theorem C9_termination_stats_witness :
    ∃ ts, ExtractTerminationStats.parse_solver_output "Sums: [4, 10]" = some ts ∧
      ts.sums = [4, 10] ∧
      ts.subset_sum_max ∈ [4, 10] ∧ (∀ y ∈ ([4, 10] : List Int), y ≤ ts.subset_sum_max) ∧
      ts.subset_sum_min ∈ [4, 10] ∧ (∀ y ∈ ([4, 10] : List Int), ts.subset_sum_min ≤ y) ∧
      ts.subset_sum_variance =
        (if ([4, 10] : List Int).length > 1
          then ExtractTerminationStats.sampleVariance [4, 10] else 0) :=
  C9_termination_stats.1 "Sums: [4, 10]" [4, 10] (by decide) (by decide)

/-- C7, counterexample.  The claim asserts the parsed result always
contains at least the instance identifier.  When the embedded JSON object
itself contains a `file` key, `result.update(stats)` overwrites the
identifier: on output `{"file": 0}` the record's `file` field is `0`, not
the instance path. -/
theorem C7_counterexample :
    dictGet "file" (CollectData.parse_output "\x7b\"file\": 0\x7d" "inst.txt") =
      some (.num 0) ∧
    dictGet "file" (CollectData.parse_output "\x7b\"file\": 0\x7d" "inst.txt") ≠
      some (.str "inst.txt") := by
  decide

/-- C7, amended.  Provided the embedded JSON stats object (when present
and decodable) does not itself use the reserved keys `file`, `sums`,
`pi`, `maxsum`, `time`, every named field is extracted independently:
each of `sums`, `pi`, `maxsum`, `time` equals its own extractor's result
(a failure only omits that field), a JSON decode failure leaves the
scalar/array fields untouched, and the record carries the instance
identifier under `file`.  Without that proviso a decoded `file` key
overwrites the identifier (see the counterexample). -/
theorem C7_field_isolation (output i : String)
    (hjson : ∀ k ∈ (match CollectData.embeddedJsonStats output.data with
      | some kvs => dictKeys kvs
      | none => ([] : List String)),
      ¬(k = "file" ∨ k = "sums" ∨ k = "pi" ∨ k = "maxsum" ∨ k = "time")) :
    dictGet "file" (CollectData.parse_output output i) = some (.str i) ∧
    dictGet "sums" (CollectData.parse_output output i) =
      (CollectData.extractSums output.data).map (fun xs => .arr (xs.map .num)) ∧
    dictGet "pi" (CollectData.parse_output output i) =
      (CollectData.extractPi output.data).map (fun xs => .arr (xs.map .num)) ∧
    dictGet "maxsum" (CollectData.parse_output output i) =
      (CollectData.extractMaxsum output.data).map .num ∧
    dictGet "time" (CollectData.parse_output output i) =
      (CollectData.extractTime output.data).map .num :=
  CollectData.parse_output_fields output i hjson

/-- C7, witness: the amended theorem at an output where the `sums` and
`maxsum` extractions succeed, the embedded JSON decodes to a
non-reserved-key object, and the `pi` extraction fails — the failing
field is omitted while its siblings are present. -/
theorem C7_field_isolation_witness :
    dictGet "file" (CollectData.parse_output
      "Sums: [1, 2] MaxSum: 7 Time: 3ms \x7b\"nodes\": 5\x7d" "w.txt") =
      some (.str "w.txt") ∧
    dictGet "sums" (CollectData.parse_output
      "Sums: [1, 2] MaxSum: 7 Time: 3ms \x7b\"nodes\": 5\x7d" "w.txt") =
      (CollectData.extractSums
        "Sums: [1, 2] MaxSum: 7 Time: 3ms \x7b\"nodes\": 5\x7d".data).map
        (fun xs => .arr (xs.map .num)) ∧
    dictGet "pi" (CollectData.parse_output
      "Sums: [1, 2] MaxSum: 7 Time: 3ms \x7b\"nodes\": 5\x7d" "w.txt") =
      (CollectData.extractPi
        "Sums: [1, 2] MaxSum: 7 Time: 3ms \x7b\"nodes\": 5\x7d".data).map
        (fun xs => .arr (xs.map .num)) := by
  have h := C7_field_isolation "Sums: [1, 2] MaxSum: 7 Time: 3ms \x7b\"nodes\": 5\x7d"
    "w.txt" (by decide)
  exact ⟨h.1, h.2.1, h.2.2.1⟩

/-- C4, counterexample.  The claim asserts the feature record never
contains two equal event records.  The extractor deduplicates only the
appended sentinel entries; duplicates inside the first-`k` prefix are
kept verbatim: a log whose first two entries are the identical record
`{"event": "STEP"}` yields a feature record with that record twice. -/
theorem C4_counterexample :
    CollectMLFeatures.log_items
      [.obj [("event", .str "STEP")], .obj [("event", .str "STEP")]] 2 =
      [.obj [("event", .str "STEP")], .obj [("event", .str "STEP")]] ∧
    ¬(CollectMLFeatures.log_items
      [.obj [("event", .str "STEP")], .obj [("event", .str "STEP")]] 2).Nodup := by
  decide

/-- C4, amended.  For every decoded log sequence and partition count `k`,
the feature record has length at most `k + 2`; and it contains no two
equal event records whenever the first `k` log entries are themselves
pairwise distinct (the appended `TIMEOUT`/`TERMINATE` sentinels are never
duplicated, but duplicates already inside the prefix are kept). -/
theorem C4_feature_record_bounds (log : List JValue) (k : Nat) :
    (CollectMLFeatures.log_items log k).length ≤ k + 2 ∧
    ((log.take k).Nodup → (CollectMLFeatures.log_items log k).Nodup) :=
  ⟨CollectMLFeatures.log_items_length_le log k,
    CollectMLFeatures.log_items_nodup log k⟩

/-- C4, witness: the amended theorem at a two-entry log with distinct
entries and `k = 1`, whose `TERMINATE` entry sits past the prefix. -/
theorem C4_feature_record_bounds_witness :
    (CollectMLFeatures.log_items
      [.obj [("event", .str "STEP")], .obj [("event", .str "TERMINATE")]] 1).length ≤ 1 + 2 ∧
    (CollectMLFeatures.log_items
      [.obj [("event", .str "STEP")], .obj [("event", .str "TERMINATE")]] 1).Nodup :=
  ⟨(C4_feature_record_bounds _ 1).1,
    (C4_feature_record_bounds
      [.obj [("event", .str "STEP")], .obj [("event", .str "TERMINATE")]] 1).2 (by decide)⟩

/-- C5.  For every decoded log sequence and partition count `k`, the
feature record contains a record whose `event` is `TIMEOUT`
(respectively `TERMINATE`) exactly when such a record occurs anywhere in
the full log — the detection scans the whole sequence, not only the
truncated prefix. -/
theorem C5_sentinel_detection (log : List JValue) (k : Nat) :
    ((∃ x ∈ CollectMLFeatures.log_items log k,
        CollectMLFeatures.eventName x = some "TIMEOUT") ↔
      (∃ x ∈ log, CollectMLFeatures.eventName x = some "TIMEOUT")) ∧
    ((∃ x ∈ CollectMLFeatures.log_items log k,
        CollectMLFeatures.eventName x = some "TERMINATE") ↔
      (∃ x ∈ log, CollectMLFeatures.eventName x = some "TERMINATE")) := by
  constructor
  · constructor
    · rintro ⟨x, hx, hev⟩
      exact ⟨x, CollectMLFeatures.mem_log_items log k x hx, hev⟩
    · intro h
      obtain ⟨t, ht⟩ := Option.isSome_iff_exists.mp
        (CollectMLFeatures.lastEventEntry_isSome "TIMEOUT" log h)
      exact ⟨t, CollectMLFeatures.timeout_mem_log_items log k t ht,
        (CollectMLFeatures.lastEventEntry_eq_some "TIMEOUT" log t ht).2⟩
  · constructor
    · rintro ⟨x, hx, hev⟩
      exact ⟨x, CollectMLFeatures.mem_log_items log k x hx, hev⟩
    · intro h
      obtain ⟨t, ht⟩ := Option.isSome_iff_exists.mp
        (CollectMLFeatures.lastEventEntry_isSome "TERMINATE" log h)
      exact ⟨t, CollectMLFeatures.terminate_mem_log_items log k t ht,
        (CollectMLFeatures.lastEventEntry_eq_some "TERMINATE" log t ht).2⟩

/-- C3, counterexample.  The claim asserts that two timeouts followed by
a good third attempt are retried twice with the third result persisted.
On the code, a `subprocess.TimeoutExpired` returns the empty record
`{file_name: []}` immediately: with timeouts on attempts 0 and 1 and
well-formed output on attempt 2, `run_command` performs exactly one
attempt and returns the empty record, not the third attempt's parse. -/
theorem C3_counterexample :
    CollectMLFeatures.run_command
      (fun j => if j < 2 then .timeoutExpired
        else .completed "\x7b\"log\": [\x7b\"event\": \"TERMINATE\"\x7d]\x7d" 0)
      "f.txt" 1 0 0 = ("f.txt", []) ∧
    CollectMLFeatures.run_command_attempts
      (fun j => if j < 2 then .timeoutExpired
        else .completed "\x7b\"log\": [\x7b\"event\": \"TERMINATE\"\x7d]\x7d" 0) 0 0 = 1 ∧
    CollectMLFeatures.parse_output
      "\x7b\"log\": [\x7b\"event\": \"TERMINATE\"\x7d]\x7d" "f.txt" 1 =
      ("f.txt", [.obj [("event", .str "TERMINATE")]]) ∧
    (("f.txt", ([] : List JValue)) : String × List JValue) ≠
      ("f.txt", [.obj [("event", .str "TERMINATE")]]) := by
  refine ⟨?_, ?_, by decide, by decide⟩
  · exact CollectMLFeatures.run_command_timeout _ "f.txt" 1 0 0 rfl
  · exact CollectMLFeatures.run_command_attempts_timeout _ 0 0 rfl

/-- C3, amended.  A Python-level timeout is never retried: an instance
whose first invocation times out yields the empty/failure record after
exactly one attempt, whatever later attempts would have returned.
Retries happen only for empty output, missing log-JSON markers, non-zero
exit codes and non-timeout exceptions. -/
theorem C3_timeout_not_retried (att : Nat → CollectMLFeatures.AttemptOutcome)
    (f : String) (k : Nat) (h : att 0 = .timeoutExpired) :
    CollectMLFeatures.run_command att f k 0 0 = (f, []) ∧
    CollectMLFeatures.run_command_attempts att 0 0 = 1 :=
  ⟨CollectMLFeatures.run_command_timeout att f k 0 0 h,
   CollectMLFeatures.run_command_attempts_timeout att 0 0 h⟩

/-- C3, witness: the amended theorem at an environment that always times
out. -/
theorem C3_timeout_not_retried_witness :
    CollectMLFeatures.run_command (fun _ => .timeoutExpired) "w.txt" 3 0 0 = ("w.txt", []) ∧
    CollectMLFeatures.run_command_attempts (fun _ => .timeoutExpired) 0 0 = 1 :=
  C3_timeout_not_retried (fun _ => .timeoutExpired) "w.txt" 3 rfl

/-- C6.  When every attempt fails transiently (non-zero exit, empty
output, or output lacking the log-JSON markers — likewise a non-timeout
exception), `run_command` retries with the same arguments up to the
ceiling `MAX_RETRIES = 3` and, once the ceiling is exhausted, returns the
empty/failure record for the instance after exactly `1 + MAX_RETRIES`
invocations instead of raising; and if attempt `j ≤ MAX_RETRIES` is the
first good one, its parsed output is returned after `j + 1`
invocations. -/
theorem C6_retry_ceiling (att : Nat → CollectMLFeatures.AttemptOutcome)
    (f : String) (k : Nat) :
    ((∀ i, i < CollectMLFeatures.MAX_RETRIES + 1 →
        CollectMLFeatures.isTransientFailure (att i) = true) →
      CollectMLFeatures.run_command att f k 0 0 = (f, []) ∧
      CollectMLFeatures.run_command_attempts att 0 0 =
        CollectMLFeatures.MAX_RETRIES + 1) ∧
    (∀ j, j ≤ CollectMLFeatures.MAX_RETRIES →
      (∀ i, i < j → CollectMLFeatures.isTransientFailure (att i) = true) →
      CollectMLFeatures.isGoodAttempt (att j) = true →
      CollectMLFeatures.run_command att f k 0 0 =
        CollectMLFeatures.parse_output (CollectMLFeatures.attemptStdout (att j)) f k ∧
      CollectMLFeatures.run_command_attempts att 0 0 = j + 1) := by
  constructor
  · intro h
    constructor
    · rw [CollectMLFeatures.run_command_step att f k 0 0 (h 0 (by decide)) (by decide),
        CollectMLFeatures.run_command_step att f k 1 1 (h 1 (by decide)) (by decide),
        CollectMLFeatures.run_command_step att f k 2 2 (h 2 (by decide)) (by decide)]
      exact CollectMLFeatures.run_command_exhaust att f k 3 (h 3 (by decide))
    · rw [CollectMLFeatures.run_command_attempts_step att 0 0 (h 0 (by decide)) (by decide),
        CollectMLFeatures.run_command_attempts_step att 1 1 (h 1 (by decide)) (by decide),
        CollectMLFeatures.run_command_attempts_step att 2 2 (h 2 (by decide)) (by decide)]
      have he : CollectMLFeatures.run_command_attempts att (2 + 1) (2 + 1) = 1 :=
        CollectMLFeatures.run_command_attempts_exhaust att 3 (h 3 (by decide))
      rw [he]
      decide
  · intro j hj htrans hgood
    have hj3 : j ≤ 3 := hj
    interval_cases j
    · exact ⟨CollectMLFeatures.run_command_good att f k 0 0 hgood,
        CollectMLFeatures.run_command_attempts_good att 0 0 hgood⟩
    · rw [CollectMLFeatures.run_command_step att f k 0 0 (htrans 0 (by decide)) (by decide),
        CollectMLFeatures.run_command_attempts_step att 0 0 (htrans 0 (by decide)) (by decide),
        CollectMLFeatures.run_command_attempts_good att 1 1 hgood]
      exact ⟨CollectMLFeatures.run_command_good att f k 1 1 hgood, rfl⟩
    · rw [CollectMLFeatures.run_command_step att f k 0 0 (htrans 0 (by decide)) (by decide),
        CollectMLFeatures.run_command_step att f k 1 1 (htrans 1 (by decide)) (by decide),
        CollectMLFeatures.run_command_attempts_step att 0 0 (htrans 0 (by decide)) (by decide),
        CollectMLFeatures.run_command_attempts_step att 1 1 (htrans 1 (by decide)) (by decide),
        CollectMLFeatures.run_command_attempts_good att 2 2 hgood]
      exact ⟨CollectMLFeatures.run_command_good att f k 2 2 hgood, rfl⟩
    · rw [CollectMLFeatures.run_command_step att f k 0 0 (htrans 0 (by decide)) (by decide),
        CollectMLFeatures.run_command_step att f k 1 1 (htrans 1 (by decide)) (by decide),
        CollectMLFeatures.run_command_step att f k 2 2 (htrans 2 (by decide)) (by decide),
        CollectMLFeatures.run_command_attempts_step att 0 0 (htrans 0 (by decide)) (by decide),
        CollectMLFeatures.run_command_attempts_step att 1 1 (htrans 1 (by decide)) (by decide),
        CollectMLFeatures.run_command_attempts_step att 2 2 (htrans 2 (by decide)) (by decide),
        CollectMLFeatures.run_command_attempts_good att 3 3 hgood]
      exact ⟨CollectMLFeatures.run_command_good att f k 3 3 hgood, rfl⟩

/-- C6, witness: the retry-ceiling branch at an environment whose every
attempt raises, and the success branch at an environment that fails once
and then completes. -/
theorem C6_retry_ceiling_witness :
    (CollectMLFeatures.run_command (fun _ => .exception) "w.txt" 2 0 0 = ("w.txt", []) ∧
      CollectMLFeatures.run_command_attempts (fun _ => .exception) 0 0 =
        CollectMLFeatures.MAX_RETRIES + 1) ∧
    (CollectMLFeatures.run_command
        (fun j => if j = 0 then .exception
          else .completed "\x7b\"log\": [\x7b\"event\": \"TERMINATE\"\x7d]\x7d" 0)
        "w.txt" 2 0 0 =
      CollectMLFeatures.parse_output
        (CollectMLFeatures.attemptStdout
          ((fun j => if j = 0 then .exception
            else .completed "\x7b\"log\": [\x7b\"event\": \"TERMINATE\"\x7d]\x7d" 0) 1))
        "w.txt" 2 ∧
      CollectMLFeatures.run_command_attempts
        (fun j => if j = 0 then .exception
          else .completed "\x7b\"log\": [\x7b\"event\": \"TERMINATE\"\x7d]\x7d" 0) 0 0 = 1 + 1) :=
  ⟨(C6_retry_ceiling (fun _ => .exception) "w.txt" 2).1 (by decide),
   (C6_retry_ceiling _ "w.txt" 2).2 1 (by decide) (by decide) (by decide)⟩

theorem CollectData.main_eq (runF : String → List (String × JValue)) :
    ∀ (insts : List String) (store : List (List (String × JValue))),
      CollectData.main runF store insts = store ++ insts.map runF := by
  intro insts
  induction insts with
  | nil => intro store; simp [CollectData.main]
  | cons i rest ih =>
    intro store
    simp only [CollectData.main, List.foldl_cons, List.map_cons] at ih ⊢
    rw [ih]
    simp

/-- C2, counterexample.  The claim asserts exactly-once persistence in
the batch/array mode as well.  `collect_data.main` consults no
processed-set and relocates no instance file, so a re-run over a
partially completed store appends a second record: after a first run
that processed `a.txt`, re-running over the corpus `[a.txt, b.txt]`
leaves two records keyed `a.txt`. -/
theorem C2_counterexample :
    (CollectData.main (fun p => [("file", .str p)])
        (CollectData.main (fun p => [("file", .str p)]) [] ["a.txt"])
        ["a.txt", "b.txt"]).countP
      (fun r => dictGet "file" r = some (.str "a.txt")) = 2 ∧
    ¬(CollectData.main (fun p => [("file", .str p)])
        (CollectData.main (fun p => [("file", .str p)]) [] ["a.txt"])
        ["a.txt", "b.txt"]).countP
      (fun r => dictGet "file" r = some (.str "a.txt")) = 1 := by
  decide

/-- C2, amended.  Streaming/append mode (`collect_ml_features.main`)
does satisfy the invariant: over any well-formed store — each line
either fails to decode or decodes to an object — holding at most one
record per instance, and any duplicate-free corpus whose appended lines
serialize faithfully, every instance that is already recorded or whose
run succeeds holds exactly one record afterwards; this covers re-runs on
partially completed stores.  The batch/array mode of `collect_data.main`
instead appends one record per listed instance unconditionally, so a
re-run duplicates the records of already-processed instances (see the
counterexample). -/
theorem C2_store_exactly_once :
    (∀ (runF : String → List JValue) (corpus store : List String) (f : String),
      (∀ line ∈ store, jsonLoads (pyStrip line.data) = none ∨
        ∃ kvs, jsonLoads (pyStrip line.data) = some (.obj kvs)) →
      CollectMLFeatures.countRecords f store ≤ 1 →
      corpus.Nodup →
      (∀ g ∈ corpus, runF g ≠ [] →
        CollectMLFeatures.lineKeys (CollectMLFeatures.result_line g (runF g)) = [g]) →
      f ∈ corpus →
      (f ∈ CollectMLFeatures.get_processed_files store ∨ runF f ≠ []) →
      CollectMLFeatures.countRecords f (CollectMLFeatures.main runF corpus store).2 = 1) ∧
    (∀ (runF : String → List (String × JValue)) (store : List (List (String × JValue)))
        (insts : List String),
      CollectData.main runF store insts = store ++ insts.map runF) :=
  ⟨fun runF corpus store f hdec hone hnodup hround hf huse =>
      CollectMLFeatures.countRecords_after_main runF corpus store f hdec hone hnodup
        hround hf huse,
   fun runF store insts => CollectData.main_eq runF insts store⟩

/-- C2, witness: the streaming part at a one-instance corpus over an
empty store, and the batch part at a concrete store and corpus. -/
theorem C2_store_exactly_once_witness :
    CollectMLFeatures.countRecords "a.txt"
      (CollectMLFeatures.main (fun _ => [.obj [("event", .str "TERMINATE")]])
        ["a.txt"] []).2 = 1 ∧
    CollectData.main (fun p => [("file", .str p)]) [[("file", .str "z.txt")]] ["a.txt"] =
      [[("file", .str "z.txt")]] ++ [["a.txt"].map (fun p => (("file", JValue.str p)))] := by
  constructor
  · exact C2_store_exactly_once.1 (fun _ => [.obj [("event", .str "TERMINATE")]])
      ["a.txt"] [] "a.txt"
      (fun line h => absurd h (List.not_mem_nil line))
      (by decide) (by decide) (by decide) (by decide) (Or.inr (by decide))
  · exact C2_store_exactly_once.2 (fun p => [("file", .str p)])
      [[("file", .str "z.txt")]] ["a.txt"]

/-- C8, counterexample.  The claim asserts the scan skips undecodable
lines and still collects the identifiers of every syntactically valid
line.  A line holding the valid JSON value `5` decodes fine, but
`data.keys()` then raises `AttributeError`, which the per-line handler
(scoped to `json.JSONDecodeError`) does not catch; the function's outer
handler ends the scan, so the identifier on the later — perfectly valid
— line `{"b.txt": []}` is never collected. -/
theorem C8_counterexample :
    CollectMLFeatures.get_processed_files
      ["\x7b\"a.txt\": []\x7d", "5", "\x7b\"b.txt\": []\x7d"] = ["a.txt"] ∧
    "b.txt" ∉ CollectMLFeatures.get_processed_files
      ["\x7b\"a.txt\": []\x7d", "5", "\x7b\"b.txt\": []\x7d"] ∧
    jsonLoads (pyStrip "\x7b\"b.txt\": []\x7d".data) =
      some (.obj [("b.txt", .arr [])]) := by
  decide

/-- C8, amended.  Over a store whose every line either fails to decode
or decodes to a JSON object (the only shapes the pipeline writes), the
start-up scan skips the undecodable lines and collects exactly the keys
of the decodable ones, and a resume run attempts exactly the instances
not recorded on any valid line.  A line decoding to a non-object value
instead aborts the scan early (see the counterexample). -/
theorem C8_processed_scan (store : List String)
    (hdec : ∀ line ∈ store, jsonLoads (pyStrip line.data) = none ∨
      ∃ kvs, jsonLoads (pyStrip line.data) = some (.obj kvs)) :
    (∀ f, f ∈ CollectMLFeatures.get_processed_files store ↔
      ∃ line ∈ store, f ∈ CollectMLFeatures.lineKeys line) ∧
    (∀ (corpus : List String) (i : String), i ∈ corpus →
      (i ∈ CollectMLFeatures.attempted corpus store ↔
        ¬∃ line ∈ store, i ∈ CollectMLFeatures.lineKeys line)) := by
  constructor
  · exact fun f => CollectMLFeatures.get_processed_files_mem f store hdec
  · intro corpus i hi
    rw [CollectMLFeatures.attempted, List.mem_filter]
    constructor
    · rintro ⟨_, hnot⟩
      simp only [decide_eq_true_eq] at hnot
      exact fun hex =>
        hnot ((CollectMLFeatures.get_processed_files_mem i store hdec).mpr hex)
    · intro hnot
      refine ⟨hi, ?_⟩
      simp only [decide_eq_true_eq]
      exact fun hmem =>
        hnot ((CollectMLFeatures.get_processed_files_mem i store hdec).mp hmem)

/-- C8, witness: the amended theorem over a store holding a malformed
(undecodable) middle line, instantiated at the identifier of the last
line: the malformed line is skipped and `b.txt` is still recognized. -/
theorem C8_processed_scan_witness :
    "b.txt" ∈ CollectMLFeatures.get_processed_files
      ["\x7b\"a.txt\": []\x7d", "not json \x7b", "\x7b\"b.txt\": []\x7d"] ↔
    ∃ line ∈ ["\x7b\"a.txt\": []\x7d", "not json \x7b", "\x7b\"b.txt\": []\x7d"],
      "b.txt" ∈ CollectMLFeatures.lineKeys line :=
  (C8_processed_scan ["\x7b\"a.txt\": []\x7d", "not json \x7b", "\x7b\"b.txt\": []\x7d"]
    (by
      intro line hline
      fin_cases hline
      · exact Or.inr ⟨[("a.txt", JValue.arr [])], by decide⟩
      · exact Or.inl (by decide)
      · exact Or.inr ⟨[("b.txt", JValue.arr [])], by decide⟩)).1 "b.txt"

/-- C10.  An instance whose run yields the empty feature list gets no
line appended and is not in the processed set, yet its file is still
moved out of the corpus directory: afterwards the store holds no record
for it, it is gone from the corpus, and a resume run over the resulting
state never attempts it. -/
theorem C10_failed_instance (runF : String → List JValue) (corpus store : List String)
    (f : String)
    (hdec : ∀ line ∈ store, jsonLoads (pyStrip line.data) = none ∨
      ∃ kvs, jsonLoads (pyStrip line.data) = some (.obj kvs))
    (hnodup : corpus.Nodup)
    (hround : ∀ g ∈ corpus, runF g ≠ [] →
      CollectMLFeatures.lineKeys (CollectMLFeatures.result_line g (runF g)) = [g])
    (hf : f ∈ corpus) (hfail : runF f = [])
    (hnp : f ∉ CollectMLFeatures.get_processed_files store) :
    CollectMLFeatures.countRecords f (CollectMLFeatures.main runF corpus store).2 = 0 ∧
    f ∉ (CollectMLFeatures.main runF corpus store).1 ∧
    f ∉ CollectMLFeatures.attempted (CollectMLFeatures.main runF corpus store).1
      (CollectMLFeatures.main runF corpus store).2 := by
  have hfst : f ∉ (CollectMLFeatures.main runF corpus store).1 :=
    CollectMLFeatures.main_fst_not_mem runF (CollectMLFeatures.get_processed_files store)
      f hnp corpus (corpus, store) hf
      ((List.nodup_iff_count_le_one.mp hnodup) f)
  refine ⟨?_, hfst, ?_⟩
  · rw [CollectMLFeatures.ml_main_store, CollectMLFeatures.countRecords,
      List.countP_append, ← CollectMLFeatures.countRecords, ← CollectMLFeatures.countRecords,
      CollectMLFeatures.countRecords_appendedLines f runF _ corpus hround]
    have hzero : CollectMLFeatures.countRecords f store = 0 := by
      rw [CollectMLFeatures.countRecords, List.countP_eq_zero]
      intro line hline
      simp only [decide_eq_true_eq]
      intro hfl
      exact hnp ((CollectMLFeatures.get_processed_files_mem f store hdec).mpr
        ⟨line, hline, hfl⟩)
    have hnotf : f ∉ List.filter
        (fun g => decide (g ∉ CollectMLFeatures.get_processed_files store) &&
          decide (runF g ≠ [])) corpus := by
      intro hmem
      have := (List.mem_filter.mp hmem).2
      simp only [Bool.and_eq_true, decide_eq_true_eq] at this
      exact this.2 hfail
    rw [CollectMLFeatures.countP_eq_self_of_nodup _ f
      (List.Nodup.filter _ hnodup), if_neg hnotf, hzero]
  · intro hmem
    exact hfst ((List.mem_filter.mp hmem).1)

/-- C10, witness: a one-instance corpus whose run fails over an empty
store — no record, the instance leaves the corpus, and a resume run
attempts nothing for it. -/
theorem C10_failed_instance_witness :
    CollectMLFeatures.countRecords "a.txt"
      (CollectMLFeatures.main (fun _ => []) ["a.txt"] []).2 = 0 ∧
    "a.txt" ∉ (CollectMLFeatures.main (fun _ => []) ["a.txt"] []).1 ∧
    "a.txt" ∉ CollectMLFeatures.attempted
      (CollectMLFeatures.main (fun _ => []) ["a.txt"] []).1
      (CollectMLFeatures.main (fun _ => []) ["a.txt"] []).2 :=
  C10_failed_instance (fun _ => []) ["a.txt"] [] "a.txt"
    (fun line h => absurd h (List.not_mem_nil line))
    (by decide) (by decide) (by decide) (by decide) (by decide)
